import Mathlib

/-!
Shallow embedding of the FDRS planning engine (`modules/constraint_manager.py`,
`modules/load_evaluator.py`, `modules/migration_planner.py`) and proofs about
it.  Hosts are identified by their names; VM and host objects are records of
the attributes the planner reads; Python floats are modelled as rationals;
Python dicts keyed by names are modelled as association lists or as total
functions paired with an explicit key domain.  Planning is a pure computation
over an immutable snapshot, so every method is a function of the snapshot and
its explicit arguments.
-/

namespace FDRS

/-- Lexicographic comparison of character lists by code point, mirroring the
Python `<` on strings. -/
def charListLt : List Char → List Char → Bool
  | [], [] => false
  | [], _ :: _ => true
  | _ :: _, [] => false
  | a :: as, b :: bs =>
    if a.toNat < b.toNat then true
    else if b.toNat < a.toNat then false
    else charListLt as bs

/-- String comparison `a < b` as Python evaluates it. -/
def strLt (a b : String) : Bool := charListLt a.data b.data

/-- Pointwise update of a total map: a Python dict write `d[k] = v`. -/
def upd {α : Type} (f : String → α) (k : String) (v : α) : String → α :=
  fun h => if h = k then v else f h

/-- Dict read with a default, `d.get(k, dflt)`, for a dict whose key set is
`dom`. -/
def dGet {α : Type} (dom : List String) (f : String → α) (k : String) (dflt : α) : α :=
  if k ∈ dom then f k else dflt

/-- A powered-on, non-template VM of the snapshot: its name, the name of the
host it currently runs on (`vm.runtime.host`; `none` when the reference is
invalid), and its template flag (re-checked by the planner). -/
structure VMach where
  name : String
  host : Option String
  template : Bool
deriving DecidableEq, Repr

/-- An entry of `cluster_state.vm_metrics`.  Each field is optional because the
code reads every key through `.get` with a default. -/
structure VmMetrics where
  cpu_usage_abs : Option ℚ := none
  memory_usage_abs : Option ℚ := none
  cpu_allocation : Option ℚ := none
  memory_allocation_bytes : Option ℚ := none
deriving DecidableEq, Repr

/-- An entry of `cluster_state.host_metrics` (the keys the planner reads). -/
structure HostMetrics where
  cpu_usage : Option ℚ := none
  memory_usage : Option ℚ := none
  memory_usage_abs : Option ℚ := none
  cpu_capacity : Option ℚ := none
  memory_capacity : Option ℚ := none
  disk_io_usage : Option ℚ := none
  network_io_usage : Option ℚ := none
  disk_io_capacity : Option ℚ := none
  network_capacity : Option ℚ := none
deriving DecidableEq, Repr

/-- The frozen cluster snapshot: active hosts (by name, in snapshot order),
active VMs, and the two metric dicts built by `annotate_vms_with_metrics` /
`annotate_hosts_with_metrics` (association lists keyed by entity name; a
missing key models a skipped entity). -/
structure ClusterState where
  hosts : List String
  vms : List VMach
  vmMetrics : List (String × VmMetrics)
  hostMetrics : List (String × HostMetrics)
deriving Repr

/-- A planned move: an entry of the migration plan dicts
`{'vm': ..., 'target_host': ..., 'reason': ...}`.  The diagnostic suffix the
balancing pass appends to its reason string is elided; only equality with
`'Anti-Affinity'` is ever inspected. -/
structure Migration where
  vm : VMach
  target : String
  reason : String
deriving DecidableEq, Repr

/-- Hosts a VM resides on: `get_vms_on_host` membership test, by host
identity. -/
def vmsOnHost (cs : ClusterState) (h : String) : List VMach :=
  cs.vms.filter (fun v => v.host == some h)

/-! ## ConstraintManager -/

/-- Trailing decimal digits removed: `vm_name.rstrip('0123456789')`. -/
def stripTrailingDigits (s : String) : String :=
  ⟨(s.data.reverse.dropWhile Char.isDigit).reverse⟩

/-- Anti-affinity key of a VM name (`_get_vm_prefix`):
`vm_name.rstrip('0123456789') or vm_name` — the stripped name, or the full
name when stripping leaves the empty string. -/
def aaKey (s : String) : String :=
  let p := stripTrailingDigits s
  if p = "" then s else p

/-- Python slice `name[:-2]`: all but the last two characters (empty when the
name has at most two characters).  This is the key `_is_anti_affinity_safe`
computes at `migration_planner.py:118`. -/
def sliceDropLast2 (s : String) : String :=
  ⟨s.data.take (s.data.length - 2)⟩

/-- Lookup `vm_distribution.get(k, [])` in the freshly populated grouping:
`enforce_anti_affinity` groups every VM with a nonempty name by its
anti-affinity key, in snapshot order. -/
def groupOf (cs : ClusterState) (k : String) : List VMach :=
  cs.vms.filter (fun v => decide (1 ≤ v.name.length ∧ aaKey v.name = k))

/-- Keys of the populated `vm_distribution` (as a set; Python preserves
first-insertion order, which no proved statement depends on). -/
def groupKeys (cs : ClusterState) : List String :=
  ((cs.vms.filter (fun v => decide (1 ≤ v.name.length))).map (fun v => aaKey v.name)).dedup

/-- Number of VMs of a group currently placed on host `h`. -/
def countOn (g : List VMach) (h : String) : ℕ :=
  (g.filter (fun v => v.host == some h)).length

/-- Maximum per-host count of a group across the active hosts. -/
def maxCountOn (cs : ClusterState) (g : List VMach) : ℕ :=
  ((cs.hosts.map (countOn g)).max?).getD 0

/-- Minimum per-host count of a group across the active hosts. -/
def minCountOn (cs : ClusterState) (g : List VMach) : ℕ :=
  ((cs.hosts.map (countOn g)).min?).getD 0

/-- Group VMs that are placed on some active host (the ones the violation scan
counts). -/
def placedInGroup (cs : ClusterState) (g : List VMach) : List VMach :=
  g.filter (fun v => match v.host with
    | some h => decide (h ∈ cs.hosts)
    | none => false)

/-- Violation detection, `calculate_anti_affinity_violations`: for every group
whose per-host count spread across active hosts exceeds 1, every VM placed on a
host whose count equals the maximum; the concatenation is deduplicated
(`list(set(...))`, modelled as `List.dedup`; the claims proved below are
insensitive to the resulting order).  Fewer than two active hosts yields `[]`. -/
def calcViolations (cs : ClusterState) : List VMach :=
  if cs.hosts.length ≤ 1 then []
  else
    ((groupKeys cs).flatMap (fun k =>
      let g := groupOf cs k
      if (placedInGroup cs g).length = 0 then []
      else if 1 < maxCountOn cs g - minCountOn cs g then
        cs.hosts.dedup.flatMap (fun h =>
          if countOn g h = maxCountOn cs g then g.filter (fun v => v.host == some h) else [])
      else [])).dedup

/-- Base per-host group counts (`base_host_group_counts`): the dict maps every
active host name to the number of group VMs currently on it; values outside the
active host set are never read without a default. -/
def baseGroupCounts (g : List VMach) : String → ℤ :=
  fun h => (countOn g h : ℤ)

/-- One step of the planned-move adjustment loop of
`get_preferred_host_for_vm` (lines 150-177): for a plan of the same group,
decrement the planned VM's current host, increment its planned target (both
only when present in the dict), then clamp the current host at 0. -/
def adjustStep (cs : ClusterState) (k : String) (f : String → ℤ) (p : Migration) :
    String → ℤ :=
  if aaKey p.vm.name = k then
    let f1 := match p.vm.host with
      | some o => if o ∈ cs.hosts then upd f o (f o - 1) else f
      | none => f
    let f2 := if p.target ∈ cs.hosts then upd f1 p.target (f1 p.target + 1) else f1
    match p.vm.host with
    | some o => if o ∈ cs.hosts ∧ f2 o < 0 then upd f2 o 0 else f2
    | none => f2
  else f

/-- Group counts adjusted by the moves already planned this cycle
(`adjusted_host_group_counts`). -/
def adjustedCounts (cs : ClusterState) (k : String) (plans : List Migration)
    (f : String → ℤ) : String → ℤ :=
  plans.foldl (adjustStep cs k) f

/-- Per-host group count after simulating the move of one group member from
`src` to `tgt` (the dict writes at `constraint_manager.py:222-224`); only read
at active hosts. -/
def simCountAfter (f : String → ℤ) (src tgt h : String) : ℤ :=
  if h = tgt then f tgt + 1 else if h = src then f src - 1 else f h

/-- Candidate test of `_find_perfect_balance_host`: after the simulated move
the group spread across active hosts is at most 1. -/
def isPerfectBalanceCandidate (cs : ClusterState) (f : String → ℤ) (src tgt : String) :
    Bool :=
  let vals := cs.hosts.map (simCountAfter f src tgt)
  match vals.max?, vals.min? with
  | some mx, some mn => decide (mx - mn ≤ 1)
  | _, _ => false

/-- One update of the selection loop shared by both stages: replace the
running best candidate when the new one has a strictly lower count, or an
equal count and a lexicographically smaller name (the running
`lowest_target_host_group_vm_count` always equals the count of the running
best candidate). -/
def pickStep (cnt : String → ℤ) (best : Option String) (c : String) : Option String :=
  match best with
  | none => some c
  | some b =>
    if cnt c < cnt b then some c
    else if cnt c = cnt b ∧ strLt c b = true then some c
    else some b

/-- Selection loop shared by both stages: the candidate with the lowest
count, ties broken by lexicographically smaller name. -/
def pickLowestCount (cnt : String → ℤ) (cands : List String) : Option String :=
  cands.foldl (pickStep cnt) none

/-- Stage 1, `_find_perfect_balance_host`: among the non-source hosts whose
simulated move leaves spread ≤ 1, the one with the lowest current adjusted
count (ties lexicographic). -/
def findPerfectBalanceHost (cs : ClusterState) (f : String → ℤ) (src : String) :
    Option String :=
  let cands := cs.hosts.filter (fun t =>
    !(t == src) && isPerfectBalanceCandidate cs f src t)
  pickLowestCount (fun h => dGet cs.hosts f h 0) cands

/-- Stage 2, `_find_better_than_source_host`: among the non-source hosts whose
adjusted count is strictly below the source's, the one with the lowest count
(ties lexicographic). -/
def findBetterThanSourceHost (cs : ClusterState) (f : String → ℤ) (src : String)
    (srcCount : ℤ) : Option String :=
  cs.hosts.foldl (fun best t =>
    if t = src then best
    else if dGet cs.hosts f t 0 < srcCount then
      pickStep (fun h => dGet cs.hosts f h 0) best t
    else best) none

/-- Target selection, `get_preferred_host_for_vm`: guard clauses, adjusted
counts, then the two-stage search.  (The `vm_distribution` repopulation branch
collapses to a lookup in the fresh grouping.) -/
def getPreferredHostForVm (cs : ClusterState) (vm : VMach) (plans : List Migration) :
    Option String :=
  if vm.name.length < 3 then none
  else
    let k := aaKey vm.name
    let g := groupOf cs k
    if g.isEmpty then none
    else
      match vm.host with
      | none => none
      | some src =>
        if cs.hosts.length ≤ 1 then none
        else
          let adj := adjustedCounts cs k plans (baseGroupCounts g)
          match findPerfectBalanceHost cs adj src with
          | some t => some t
          | none => findBetterThanSourceHost cs adj src (dGet cs.hosts adj src 0)

/-! ## MigrationManager: anti-affinity safety and fit checks -/

/-- Last planned location of a VM name (`planned_vm_locations`; a later plan
for the same VM overwrites an earlier one). -/
def plannedLoc (plans : List Migration) (n : String) : Option String :=
  plans.foldl (fun acc p => if p.vm.name = n then some p.target else acc) none

/-- Final simulated host of a group member inside `_is_anti_affinity_safe`:
the probed target for the moved VM itself, the planned target for a VM moved
earlier this cycle, otherwise its current host. -/
def finalHostFor (plans : List Migration) (mvName tgt : String) (v : VMach) :
    Option String :=
  if v.name = mvName then some tgt
  else match plannedLoc plans v.name with
    | some t => some t
    | none => v.host

/-- Balancing-pass anti-affinity safety check, `_is_anti_affinity_safe`.  Note
the group key is the Python slice `vm.name[:-2]`, not the `_get_vm_prefix`
digit-stripping key under which `vm_distribution` is organised. -/
def isAntiAffinitySafe (cs : ClusterState) (plans : List Migration) (vm : VMach)
    (tgt : String) : Bool :=
  let k := sliceDropLast2 vm.name
  let g := groupOf cs k
  if g.isEmpty then true
  else if cs.hosts.length ≤ 1 then true
  else
    let cnt : String → ℕ := fun h =>
      (g.filter (fun v => finalHostFor plans vm.name tgt v == some h)).length
    let counts := cs.hosts.dedup.map cnt
    match counts.max?, counts.min? with
    | some mx, some mn => decide (mx - mn ≤ 1)
    | _, _ => true

/-- Variant of `isAntiAffinitySafe` whose only change is the group key: it uses
the uniform digit-stripping anti-affinity key, the rule the specification
adopts for the safety check.  Kept solely to compare against the source
function above. -/
def isAntiAffinitySafeAAKey (cs : ClusterState) (plans : List Migration) (vm : VMach)
    (tgt : String) : Bool :=
  let k := aaKey vm.name
  let g := groupOf cs k
  if g.isEmpty then true
  else if cs.hosts.length ≤ 1 then true
  else
    let cnt : String → ℕ := fun h =>
      (g.filter (fun v => finalHostFor plans vm.name tgt v == some h)).length
    let counts := cs.hosts.dedup.map cnt
    match counts.max?, counts.min? with
    | some mx, some mn => decide (mx - mn ≤ 1)
    | _, _ => true

/-- VM CPU requirement read by the fit checks:
`vm_metrics.get('cpu_usage_abs', vm_metrics.get('cpu_allocation', 0))`. -/
def vmCpuReq (m : VmMetrics) : ℚ :=
  m.cpu_usage_abs.getD (m.cpu_allocation.getD 0)

/-- VM memory requirement read by the fit checks. -/
def vmMemReq (m : VmMetrics) : ℚ :=
  m.memory_usage_abs.getD (m.memory_allocation_bytes.getD 0)

/-- Shared body of the two fit checks: projected post-move CPU and memory
percentages on the target host (100 when the capacity is not positive). -/
def projectedPcts (vmm : VmMetrics) (hm : HostMetrics) : ℚ × ℚ :=
  let cpuCap := hm.cpu_capacity.getD 1
  let memCap := hm.memory_capacity.getD 1
  let pcpu := if 0 < cpuCap
    then (hm.cpu_usage.getD 0 + vmCpuReq vmm) / cpuCap * 100 else 100
  let pmem := if 0 < memCap
    then (hm.memory_usage_abs.getD 0 + vmMemReq vmm) / memCap * 100 else 100
  (pcpu, pmem)

/-- Hard fit check, `_would_fit_on_host`: missing metrics for the VM or the
host fail the check; otherwise both projected percentages must be ≤ 90. -/
def wouldFitOnHost (cs : ClusterState) (vm : VMach) (host : String) : Bool :=
  match cs.vmMetrics.lookup vm.name, cs.hostMetrics.lookup host with
  | some vmm, some hm =>
    let p := projectedPcts vmm hm
    decide (p.1 ≤ 90) && decide (p.2 ≤ 90)
  | _, _ => false

/-- Soft fit check, `_would_fit_on_host_soft`: same computation against the
given thresholds (the planner passes 95/95). -/
def wouldFitOnHostSoft (cs : ClusterState) (vm : VMach) (host : String)
    (cpuThreshold memThreshold : ℚ) : Bool :=
  match cs.vmMetrics.lookup vm.name, cs.hostMetrics.lookup host with
  | some vmm, some hm =>
    let p := projectedPcts vmm hm
    decide (p.1 ≤ cpuThreshold) && decide (p.2 ≤ memThreshold)
  | _, _ => false

/-! ## LoadEvaluator -/

/-- An entry of the host list handed to `LoadEvaluator` (built by
`get_cluster_state`, which fills every key, defaulting to 0). -/
structure HostDict where
  name : String
  cpu_usage : ℚ := 0
  cpu_capacity : ℚ := 0
  memory_usage : ℚ := 0
  memory_capacity : ℚ := 0
  disk_io_usage : ℚ := 0
  disk_io_capacity : ℚ := 0
  network_io_usage : ℚ := 0
  network_capacity : ℚ := 0
deriving DecidableEq, Repr

/-- Usage percentage of one resource on one host:
`(usage / capacity * 100.0) if capacity > 0 else 0.0`.  Division on ℚ is
total, so the computation can never raise. -/
def pct (u c : ℚ) : ℚ := if 0 < c then u / c * 100 else 0

/-- The quartet of per-host percentage lists returned by
`get_resource_percentage_lists` (the memoisation cache is invalidated at every
cycle boundary, so the function is modelled cacheless). -/
structure PctLists where
  cpu : List ℚ
  memory : List ℚ
  disk : List ℚ
  network : List ℚ
deriving Repr

/-- The four parallel percentage lists, one entry per host in list order. -/
def getResourcePercentageLists : List HostDict → PctLists
  | [] => ⟨[], [], [], []⟩
  | h :: t =>
    let r := getResourcePercentageLists t
    ⟨pct h.cpu_usage h.cpu_capacity :: r.cpu,
     pct h.memory_usage h.memory_capacity :: r.memory,
     pct h.disk_io_usage h.disk_io_capacity :: r.disk,
     pct h.network_io_usage h.network_capacity :: r.network⟩

/-- The four balanced resources, in the dict insertion order the code uses. -/
inductive Res
  | cpu
  | memory
  | disk
  | network
deriving DecidableEq, Repr

/-- All resources in evaluation order. -/
def Res.allList : List Res := [.cpu, .memory, .disk, .network]

/-- Percentage list of one resource. -/
def PctLists.of (r : PctLists) : Res → List ℚ
  | .cpu => r.cpu
  | .memory => r.memory
  | .disk => r.disk
  | .network => r.network

/-- Threshold mapping of `get_thresholds`: aggressiveness 1..5 to allowed
spread, default 15 for unknown levels. -/
def thresholdValue (agg : ℕ) : ℚ :=
  match agg with
  | 5 => 5
  | 4 => 10
  | 3 => 15
  | 2 => 20
  | 1 => 25
  | _ => 15

/-- The same threshold applies to every resource. -/
def getThresholds (agg : ℕ) (_r : Res) : ℚ := thresholdValue agg

/-- One resource's entry of the `evaluate_imbalance` result (the
`all_percentages` field is never read by the planner and is elided). -/
structure ImbalanceDetail where
  is_imbalanced : Bool
  current_diff : ℚ
  threshold : ℚ
  min_usage : ℚ
  max_usage : ℚ
  avg_usage : ℚ
deriving DecidableEq, Repr

/-- The `round(x, 2)` applied to the reported fields.  Python rounds floats
half-to-even; the tie direction feeds only log output and two heuristic
comparisons and no claim below depends on it. -/
def round2 (q : ℚ) : ℚ := (round (q * 100) : ℚ) / 100

/-- One resource's imbalance evaluation: fewer than two data points is
balanced; otherwise the spread is compared against the threshold. -/
def mkImbalanceDetail (ps : List ℚ) (thr : ℚ) : ImbalanceDetail :=
  if ps.length < 2 then ⟨false, 0, thr, 0, 0, 0⟩
  else
    let mn := ps.min?.getD 0
    let mx := ps.max?.getD 0
    let avg := ps.sum / ps.length
    ⟨decide (thr < mx - mn), round2 (mx - mn), thr, round2 mn, round2 mx, round2 avg⟩

/-- Imbalance evaluation, `evaluate_imbalance`.  The planner always checks all
four metrics and passes either all four override lists or none, so the
overrides are one optional quadruple. -/
def evaluateImbalance (le : List HostDict) (agg : ℕ)
    (ovr : Option (List ℚ × List ℚ × List ℚ × List ℚ)) (r : Res) : ImbalanceDetail :=
  let lists : PctLists := match ovr with
    | some (c, m, d, n) => ⟨c, m, d, n⟩
    | none => getResourcePercentageLists le
  mkImbalanceDetail (lists.of r) (getThresholds agg r)

/-- Balance predicate `is_balanced` at its call site in the iterative planner
(no arguments, hence aggressiveness 3 and the internal percentage lists). -/
def isBalanced (le : List HostDict) : Bool :=
  Res.allList.all (fun r => !(evaluateImbalance le 3 none r).is_imbalanced)

/-- One host's entry of a simulated load map. -/
structure SimPct where
  cpu : ℚ
  memory : ℚ
  disk : ℚ
  network : ℚ
deriving DecidableEq, Repr

/-- Resource projection of a load-map entry (`.get(res, 0)` on a dict that
always carries all four keys). -/
def SimPct.of (p : SimPct) : Res → ℚ
  | .cpu => p.cpu
  | .memory => p.memory
  | .disk => p.disk
  | .network => p.network

/-- Display name of an evaluator host entry inside
`get_all_host_resource_percentages_map` (placeholder for a missing name). -/
def evalHostName (i : ℕ) (h : HostDict) : String :=
  if h.name ≠ "" then h.name else "unknown_host_" ++ toString i

/-- The map host name → percentage quartet, `get_all_host_resource_percentages_map`
(a Python dict in insertion order, modelled as an association list). -/
def getAllHostResourcePercentagesMap (le : List HostDict) : List (String × SimPct) :=
  let r := getResourcePercentageLists le
  le.enum.map (fun p =>
    if p.1 < r.cpu.length ∧ p.1 < r.memory.length ∧ p.1 < r.disk.length ∧
        p.1 < r.network.length then
      (evalHostName p.1 p.2,
       ⟨r.cpu.getD p.1 0, r.memory.getD p.1 0, r.disk.getD p.1 0, r.network.getD p.1 0⟩)
    else (evalHostName p.1 p.2, ⟨0, 0, 0, 0⟩))

/-! ## MigrationManager: load simulation -/

/-- Initial absolute CPU/memory load of a host inside
`_get_simulated_load_data_after_migrations` (`cluster_state.host_metrics`
reads with defaults). -/
def baseAbsLoads (cs : ClusterState) : String → ℚ × ℚ :=
  fun h =>
    match cs.hostMetrics.lookup h with
    | some hm => (hm.cpu_usage.getD 0, hm.memory_usage.getD 0)
    | none => (0, 0)

/-- Absolute CPU/memory capacities used by the simulation (default 1 when the
key or the entry is missing). -/
def absCaps (cs : ClusterState) : String → ℚ × ℚ :=
  fun h =>
    match cs.hostMetrics.lookup h with
    | some hm => (hm.cpu_capacity.getD 1, hm.memory_capacity.getD 1)
    | none => (1, 1)

/-- Absolute CPU/memory usage of a VM as the simulation reads it
(`vm_metrics.get(name, {})` then per-key defaults). -/
def vmAbsUsage (cs : ClusterState) (n : String) : ℚ × ℚ :=
  match cs.vmMetrics.lookup n with
  | some m => (m.cpu_usage_abs.getD 0, m.memory_usage_abs.getD 0)
  | none => (0, 0)

/-- Absolute per-host CPU/memory loads after simulating the given moves:
subtract each moved VM's usage at its source, add it at its target (each only
when the host is in the load dict, i.e. among the snapshot hosts). -/
def simAbsLoads (cs : ClusterState) (moves : List Migration) : String → ℚ × ℚ :=
  moves.foldl (fun f mv =>
    let u := vmAbsUsage cs mv.vm.name
    let f1 := match mv.vm.host with
      | some s => if s ∈ cs.hosts then upd f s ((f s).1 - u.1, (f s).2 - u.2) else f
      | none => f
    if mv.target ∈ cs.hosts then
      upd f1 mv.target ((f1 mv.target).1 + u.1, (f1 mv.target).2 + u.2)
    else f1)
    (baseAbsLoads cs)

/-- Host-name order of the simulated result (`host_names_from_evaluator` with
its fallback to the snapshot hosts). -/
def evalNamesForSim (cs : ClusterState) (le : List HostDict) : List String :=
  let l := (le.filter (fun h => !(h.name == ""))).map (fun h => h.name)
  if l = [] ∧ cs.hosts ≠ [] then cs.hosts else l

/-- Result quintuple of `_get_simulated_load_data_after_migrations`. -/
structure SimData where
  cpuList : List ℚ
  memList : List ℚ
  diskList : List ℚ
  netList : List ℚ
  loadMap : List (String × SimPct)
deriving Repr

/-- Value part of one entry of the simulated load map: simulated CPU and
memory percentages of host `h` (zero when the host is unknown to the absolute
load dict, i.e. not a snapshot host), and the snapshot's disk and network
percentages at index `j` (`List.getD _ _ 0` is the source's explicit index
guard). -/
def simEntryVal (cs : ClusterState) (fl : String → ℚ × ℚ) (r : PctLists) (j : ℕ)
    (h : String) : SimPct :=
  let caps := absCaps cs
  if h ∈ cs.hosts then
    ⟨(if 0 < (caps h).1 then (fl h).1 / (caps h).1 * 100 else 0),
     (if 0 < (caps h).2 then (fl h).2 / (caps h).2 * 100 else 0),
     r.disk.getD j 0, r.network.getD j 0⟩
  else ⟨0, 0, r.disk.getD j 0, r.network.getD j 0⟩

/-- The simulation of a move list: new CPU/memory percentage lists and load
map; disk and network percentages are taken from the unmodified snapshot. -/
def getSimulatedLoadData (cs : ClusterState) (le : List HostDict)
    (moves : List Migration) : SimData :=
  if cs.hosts = [] then ⟨[], [], [], [], []⟩
  else
    let f := simAbsLoads cs moves
    let r := getResourcePercentageLists le
    let entries := (evalNamesForSim cs le).enum.map (fun p =>
      (p.2, simEntryVal cs f r p.1 p.2))
    ⟨entries.map (fun e => e.2.cpu), entries.map (fun e => e.2.memory),
     r.disk, r.network, entries⟩

/-! ## MigrationManager: planning passes -/

/-- Constructor state of a `MigrationManager`.  A `max_total_migrations` of
`None` defaults to 20; the attribute `anti_affinity_only` is distinct from the
parameter of the same name taken by `plan_migrations`. -/
structure Manager where
  aggressiveness : ℕ
  maxTotalMigrations : ℕ
  ignoreAntiAffinity : Bool
  antiAffinityOnlyAttr : Bool
deriving Repr

/-- Anti-affinity planning loop over the violator list
(`_plan_anti_affinity_migrations`): skip VMs already planned and templates;
ask for a preferred host given the moves planned so far this pass; admit with
no resource check in anti-affinity-only mode, otherwise by the 95% soft fit. -/
def planAALoop (m : Manager) (cs : ClusterState) :
    List VMach → List Migration → List String → List Migration × List String
  | [], migs, planned => (migs, planned)
  | v :: rest, migs, planned =>
    if v.name ∈ planned then planAALoop m cs rest migs planned
    else if v.template then planAALoop m cs rest migs planned
    else
      match getPreferredHostForVm cs v migs with
      | none => planAALoop m cs rest migs planned
      | some t =>
        if m.antiAffinityOnlyAttr = true ∨ wouldFitOnHostSoft cs v t 95 95 = true then
          planAALoop m cs rest (migs ++ [⟨v, t, "Anti-Affinity"⟩]) (v.name :: planned)
        else planAALoop m cs rest migs planned

/-- The anti-affinity pass: run the loop over the freshly calculated violator
list with an empty plan. -/
def planAntiAffinityMigrations (m : Manager) (cs : ClusterState) :
    List Migration × List String :=
  planAALoop m cs (calcViolations cs) [] []

/-- Sort key of `_select_vms_to_move`: usage of the hinted resource, or
cpu+memory combined. -/
def vmSortKey (cs : ClusterState) (hint : Option Res) (v : VMach) : ℚ :=
  match cs.vmMetrics.lookup v.name with
  | none => 0
  | some mt =>
    match hint with
    | some .cpu => mt.cpu_usage_abs.getD 0
    | some .memory => mt.memory_usage_abs.getD 0
    | _ => mt.cpu_usage_abs.getD 0 + mt.memory_usage_abs.getD 0

/-- Stable insertion into a descending-sorted list (an element goes before the
first strictly smaller key, after equal keys from earlier positions). -/
def insertDescBy {α : Type} (key : α → ℚ) (x : α) : List α → List α
  | [] => [x]
  | y :: ys => if key y ≤ key x then x :: y :: ys else y :: insertDescBy key x ys

/-- Stable descending sort, modelling Python `list.sort(key=..., reverse=True)`. -/
def sortDescBy {α : Type} (key : α → ℚ) : List α → List α
  | [] => []
  | x :: xs => insertDescBy key x (sortDescBy key xs)

/-- Candidate VMs to move off a source host, `_select_vms_to_move`: resident
VMs not already planned and not templates, ranked by the hint resource, first
`aggressiveness` many. -/
def selectVmsToMove (m : Manager) (cs : ClusterState) (src : String)
    (hint : Option Res) (planned : List String) : List VMach :=
  let cands := (vmsOnHost cs src).filter
    (fun v => !(decide (v.name ∈ planned)) && !v.template)
  (sortDescBy (vmSortKey cs hint) cands).take m.aggressiveness

/-- Balancing score of a target host: Σ over the imbalanced resources of
`100 − target_pct`. -/
def balanceScore (problematic : List Res) (tmet : SimPct) : ℚ :=
  (problematic.map (fun r => 100 - tmet.of r)).sum

/-- Target search for one balancing candidate, `_find_better_host_for_balancing`:
every other host is screened by the hard fit, the anti-affinity safety check
(unless ignored) and the ping-pong guard; surviving hosts are scored and the
best score (earliest on ties, as the stable sort leaves it first) wins. -/
def findBetterHostForBalancing (m : Manager) (cs : ClusterState) (vm : VMach)
    (src : String) (srcMet : SimPct) (hint : Option Res) (problematic : List Res)
    (decisionMap : List (String × SimPct)) (safety : List Migration) :
    Option String :=
  let pot := cs.hosts.filterMap (fun t =>
    if t = src then none
    else if wouldFitOnHost cs vm t = false then none
    else if m.ignoreAntiAffinity = false ∧ isAntiAffinitySafe cs safety vm t = false then
      none
    else
      match decisionMap.lookup t with
      | none => none
      | some tmet =>
        let pingOk : Bool := match hint with
          | some r => decide (tmet.of r < srcMet.of r - getThresholds m.aggressiveness r / 3)
          | none => true
        if pingOk = false then none
        else if 0 < balanceScore problematic tmet then some (t, balanceScore problematic tmet)
        else none)
  ((sortDescBy (fun q => q.2) pot).head?).map (fun q => q.1)

/-- Source-candidate test per problematic resource (lines 631-634): simulated
usage strictly above average plus half the threshold, within 95% of the
maximum, and positive. -/
def hostQualifies (m : Manager) (details : Res → ImbalanceDetail) (srcMet : SimPct)
    (r : Res) : Bool :=
  let usage := srcMet.of r
  let d := details r
  decide (d.avg_usage + getThresholds m.aggressiveness r / 2 < usage) &&
  decide (d.max_usage * (95 / 100) ≤ usage) &&
  decide (0 < usage)

/-- Inner loop of the balancing pass over one host's candidate VMs; threads
the balancing plan, the planned-name set and the safety-check move list. -/
def balanceVmLoop (m : Manager) (cs : ClusterState) (src : String) (srcMet : SimPct)
    (hint : Option Res) (problematic : List Res)
    (decisionMap : List (String × SimPct)) :
    List VMach → List Migration → List String → List Migration →
    List Migration × List String × List Migration
  | [], bal, planned, safety => (bal, planned, safety)
  | vm :: rest, bal, planned, safety =>
    if problematic.isEmpty then
      balanceVmLoop m cs src srcMet hint problematic decisionMap rest bal planned safety
    else
      match findBetterHostForBalancing m cs vm src srcMet hint problematic decisionMap
          safety with
      | none => balanceVmLoop m cs src srcMet hint problematic decisionMap rest bal
          planned safety
      | some t =>
        balanceVmLoop m cs src srcMet hint problematic decisionMap rest
          (bal ++ [⟨vm, t, "Resource Balancing"⟩]) (vm.name :: planned)
          (safety ++ [⟨vm, t, "Resource Balancing"⟩])

/-- Outer loop of the balancing pass over the snapshot hosts as migration
sources. -/
def balanceHostLoop (m : Manager) (cs : ClusterState) (details : Res → ImbalanceDetail)
    (problematic : List Res) (decisionMap : List (String × SimPct)) :
    List String → List Migration → List String → List Migration →
    List Migration × List String × List Migration
  | [], bal, planned, safety => (bal, planned, safety)
  | src :: rest, bal, planned, safety =>
    match decisionMap.lookup src with
    | none => balanceHostLoop m cs details problematic decisionMap rest bal planned safety
    | some srcMet =>
      match problematic.find? (fun r => hostQualifies m details srcMet r) with
      | none => balanceHostLoop m cs details problematic decisionMap rest bal planned
          safety
      | some hintRes =>
        let cands := selectVmsToMove m cs src (some hintRes) planned
        let st := balanceVmLoop m cs src srcMet (some hintRes) problematic decisionMap
          cands bal planned safety
        balanceHostLoop m cs details problematic decisionMap rest st.1 st.2.1 st.2.2

/-- The balancing pass, `_plan_balancing_migrations`: evaluate imbalance on
the (possibly simulated) percentage lists, return early when no resource is
imbalanced, else walk the hosts.  (With all four metrics checked the result
dict is never empty, so that guard is unreachable.) -/
def planBalancingMigrations (m : Manager) (cs : ClusterState) (le : List HostDict)
    (planned : List String) (decisionMap : List (String × SimPct))
    (currentMigs : List Migration)
    (ovr : Option (List ℚ × List ℚ × List ℚ × List ℚ)) : List Migration :=
  let details := evaluateImbalance le m.aggressiveness ovr
  let problematic := Res.allList.filter (fun r => (details r).is_imbalanced)
  if problematic.isEmpty then []
  else (balanceHostLoop m cs details problematic decisionMap cs.hosts [] planned
    currentMigs).1

/-- Reason test used by the truncation step. -/
def isAAMig (mg : Migration) : Bool := mg.reason == "Anti-Affinity"

/-- Truncation to the migration budget (lines 445-467): when the plan is over
the limit, anti-affinity moves are kept first in order and balancing moves
fill the remaining slots in order. -/
def truncatePlan (maxT : ℕ) (migs : List Migration) : List Migration :=
  if maxT < migs.length then
    let aa := migs.filter isAAMig
    let bal := migs.filter (fun mg => !isAAMig mg)
    if maxT ≤ aa.length then aa.take maxT
    else aa ++ bal.take (maxT - aa.length)
  else migs

/-- Override lists and decision map the balancing pass receives (lines
406-426): live percentages when no anti-affinity move was planned, else the
simulated state after those moves. -/
def balancingInputs (cs : ClusterState) (le : List HostDict)
    (aaMigs : List Migration) :
    Option (List ℚ × List ℚ × List ℚ × List ℚ) × List (String × SimPct) :=
  if aaMigs.isEmpty then (none, getAllHostResourcePercentagesMap le)
  else
    let sd := getSimulatedLoadData cs le aaMigs
    (some (sd.cpuList, sd.memList, sd.diskList, sd.netList), sd.loadMap)

/-- The single planning pass, `plan_migrations`: anti-affinity pass, optional
balancing pass on the state simulated after the anti-affinity moves,
truncation, and projection to `(vm, target_host)` tuples. -/
def planMigrations (m : Manager) (cs : ClusterState) (le : List HostDict)
    (antiAffinityOnly : Bool) : List (VMach × String) :=
  let aa := planAntiAffinityMigrations m cs
  let migrations :=
    if antiAffinityOnly then aa.1
    else
      let od := balancingInputs cs le aa.1
      aa.1 ++ planBalancingMigrations m cs le aa.2 od.2 aa.1 od.1
  (truncatePlan m.maxTotalMigrations migrations).map (fun mg => (mg.vm, mg.target))

/-! ## IterativeController -/

/-- Python `int()` applied to a rational: truncation toward zero. -/
def pyInt (q : ℚ) : ℤ := if 0 ≤ q then ⌊q⌋ else ⌈q⌉

/-- Aggressiveness used on iterations after the first
(`max(1, int(self.aggressiveness / iteration_threshold_multiplier))`, lines
722-724): one division by the multiplier, truncated, floored at 1. -/
def adjustedAggressiveness (agg : ℕ) (mult : ℚ) : ℕ :=
  (max 1 (pyInt ((agg : ℚ) / mult))).toNat

/-- Aggressiveness handed to the single-pass planner in iteration `i`.  The
original attribute is restored after every pass (lines 721 and 732), so each
iteration derives its value from the original. -/
def iterationAggressiveness (agg : ℕ) (mult : ℚ) (i : ℕ) : ℕ :=
  if 1 < i then adjustedAggressiveness agg mult else agg

/-- Iteration loop of `plan_migrations_iterative`: exit on convergence (no
violations and balanced), plan a pass with the per-iteration aggressiveness,
stop early when a pass yields nothing, else accumulate.  `fuel` counts the
remaining iterations, `i` the 1-based iteration number. -/
def planIterAux (m : Manager) (cs : ClusterState) (le : List HostDict)
    (antiAffinityOnly : Bool) (mult : ℚ) :
    ℕ → ℕ → List (VMach × String) → List (VMach × String)
  | 0, _, acc => acc
  | fuel + 1, i, acc =>
    if calcViolations cs = [] ∧ isBalanced le = true then acc
    else
      let migs := planMigrations
        { m with aggressiveness := iterationAggressiveness m.aggressiveness mult i }
        cs le antiAffinityOnly
      if migs.isEmpty then acc
      else planIterAux m cs le antiAffinityOnly mult fuel (i + 1) (acc ++ migs)

/-- Iterative planning, `plan_migrations_iterative`. -/
def planMigrationsIterative (m : Manager) (cs : ClusterState) (le : List HostDict)
    (maxIterations : ℕ) (antiAffinityOnly : Bool) (mult : ℚ) :
    List (VMach × String) :=
  planIterAux m cs le antiAffinityOnly mult maxIterations 1 []

/-- The preference order implemented by the selection loop: `x` is at least as
good as `y` (lower count, or equal count and not lexicographically larger). -/
def pkBetter (cnt : String → ℤ) (x y : String) : Prop :=
  cnt x < cnt y ∨ (cnt x = cnt y ∧ strLt y x = false)

/-- A well-formed plan entry for claim purposes: the target host is in the
snapshot and differs from the moved VM's current host. -/
def migValid (cs : ClusterState) (mg : Migration) : Prop :=
  mg.target ∈ cs.hosts ∧ mg.vm.host ≠ some mg.target

/-! ## Concrete snapshots used to instantiate the theorems -/

/-- VM `web1`, resident on host `hA`. -/
def vmWeb1 : VMach := ⟨"web1", some "hA", false⟩

/-- VM `web2`, resident on host `hB`. -/
def vmWeb2 : VMach := ⟨"web2", some "hB", false⟩

/-- VM `web3`, resident on host `hB`. -/
def vmWeb3 : VMach := ⟨"web3", some "hB", false⟩

/-- Two hosts; the `web` group sits 1-on-`hA`, 2-on-`hB` (spread 1, so moving
`web1` onto `hB` would push the spread to 3). -/
def csWeb : ClusterState :=
  { hosts := ["hA", "hB"]
    vms := [vmWeb1, vmWeb2, vmWeb3]
    vmMetrics := []
    hostMetrics := [] }

/-- VM `app01` on `H1`. -/
def vmApp1 : VMach := ⟨"app01", some "H1", false⟩

/-- VM `app02` on `H1`. -/
def vmApp2 : VMach := ⟨"app02", some "H1", false⟩

/-- VM `app03` on `H1`. -/
def vmApp3 : VMach := ⟨"app03", some "H1", false⟩

/-- Three hosts with the whole `app` group on `H1`: a pure-distribution
snapshot (scenario S1 of the specification). -/
def csApp : ClusterState :=
  { hosts := ["H1", "H2", "H3"]
    vms := [vmApp1, vmApp2, vmApp3]
    vmMetrics := []
    hostMetrics := [] }

/-- A VM with no `vm_metrics` entry. -/
def vmNoMetrics : VMach := ⟨"db01", some "h1", false⟩

/-- One lightly loaded host with full metrics; the VM has no metrics entry. -/
def csFitMissing : ClusterState :=
  { hosts := ["h1", "h2"]
    vms := [vmNoMetrics]
    vmMetrics := []
    hostMetrics := [("h1",
      { cpu_usage := some 0, memory_usage := some 0, cpu_capacity := some 100
        memory_capacity := some 100 })] }

/-- The same snapshot with an explicit all-zero metrics entry for the VM. -/
def csFitZero : ClusterState :=
  { csFitMissing with
    vmMetrics := [("db01", { cpu_usage_abs := some 0, memory_usage_abs := some 0 })] }

/-- A three-entry plan (two anti-affinity moves around one balancing move)
used to exercise the truncation step. -/
def truncExample : List Migration :=
  [⟨vmWeb1, "hB", "Anti-Affinity"⟩, ⟨vmWeb2, "hA", "Resource Balancing"⟩,
   ⟨vmWeb3, "hA", "Anti-Affinity"⟩]

/-- Two evaluator host entries with distinct nonempty names and mixed
capacities (one zero capacity). -/
def leExample : List HostDict :=
  [{ name := "hA", cpu_usage := 50, cpu_capacity := 100, memory_usage := 30
     memory_capacity := 60, disk_io_usage := 10, disk_io_capacity := 40
     network_io_usage := 5, network_capacity := 0 },
   { name := "hB", cpu_usage := 10, cpu_capacity := 100, memory_usage := 10
     memory_capacity := 100, disk_io_usage := 0, disk_io_capacity := 0
     network_io_usage := 3, network_capacity := 12 }]

/-! ## Helper lemmas: the string order -/

theorem charListLt_irrefl : ∀ l : List Char, charListLt l l = false
  | [] => rfl
  | a :: as => by
    unfold charListLt
    rw [if_neg (lt_irrefl a.toNat)]
    rw [if_neg (lt_irrefl a.toNat)]
    exact charListLt_irrefl as

theorem charListLt_asymm : ∀ {l₁ l₂ : List Char},
    charListLt l₁ l₂ = true → charListLt l₂ l₁ = false
  | [], [], h => by simp [charListLt] at h
  | [], _ :: _, _ => rfl
  | _ :: _, [], h => by simp [charListLt] at h
  | a :: as, b :: bs, h => by
    unfold charListLt at h ⊢
    rcases Nat.lt_trichotomy a.toNat b.toNat with hab | hab | hab
    · rw [if_neg (Nat.lt_asymm hab), if_pos hab]
    · rw [hab] at h ⊢
      rw [if_neg (lt_irrefl b.toNat)] at h ⊢
      rw [if_neg (lt_irrefl b.toNat)] at h ⊢
      exact charListLt_asymm h
    · rw [if_neg (Nat.lt_asymm hab), if_pos hab] at h
      exact absurd h (by simp)

theorem charListLt_trans : ∀ {l₁ l₂ l₃ : List Char},
    charListLt l₁ l₂ = true → charListLt l₂ l₃ = true → charListLt l₁ l₃ = true
  | [], _, _ :: _, _, _ => rfl
  | [], l₂, [], _, h₂ => by
    cases l₂ <;> simp [charListLt] at h₂
  | _ :: _, l₂, [], h₁, h₂ => by
    cases l₂ <;> simp [charListLt] at h₁ h₂
  | a :: as, l₂, c :: cs, h₁, h₂ => by
    match l₂ with
    | [] => simp [charListLt] at h₁
    | b :: bs =>
      unfold charListLt at h₁ h₂ ⊢
      rcases Nat.lt_trichotomy a.toNat b.toNat with hab | hab | hab
      · rcases Nat.lt_trichotomy b.toNat c.toNat with hbc | hbc | hbc
        · rw [if_pos (Nat.lt_trans hab hbc)]
        · rw [← hbc, if_pos hab]
        · rw [if_neg (Nat.lt_asymm hbc), if_pos hbc] at h₂
          exact absurd h₂ (by simp)
      · rw [hab]
        rw [hab, if_neg (lt_irrefl b.toNat), if_neg (lt_irrefl b.toNat)] at h₁
        rcases Nat.lt_trichotomy b.toNat c.toNat with hbc | hbc | hbc
        · rw [if_pos hbc]
        · rw [hbc] at h₂ ⊢
          rw [if_neg (lt_irrefl c.toNat)] at h₂ ⊢
          rw [if_neg (lt_irrefl c.toNat)] at h₂ ⊢
          exact charListLt_trans h₁ h₂
        · rw [if_neg (Nat.lt_asymm hbc), if_pos hbc] at h₂
          exact absurd h₂ (by simp)
      · rw [if_neg (Nat.lt_asymm hab), if_pos hab] at h₁
        exact absurd h₁ (by simp)

theorem charListLt_connex : ∀ {l₁ l₂ : List Char},
    charListLt l₁ l₂ = false → charListLt l₂ l₁ = false → l₁ = l₂
  | [], [], _, _ => rfl
  | [], _ :: _, h₁, _ => by simp [charListLt] at h₁
  | _ :: _, [], _, h₂ => by simp [charListLt] at h₂
  | a :: as, b :: bs, h₁, h₂ => by
    unfold charListLt at h₁ h₂
    rcases Nat.lt_trichotomy a.toNat b.toNat with hab | hab | hab
    · rw [if_pos hab] at h₁
      exact absurd h₁ (by simp)
    · have hab' : a = b := by
        apply Char.ext
        apply UInt32.ext
        exact hab
      subst hab'
      rw [if_neg (lt_irrefl a.toNat)] at h₁ h₂
      rw [if_neg (lt_irrefl a.toNat)] at h₁ h₂
      rw [charListLt_connex h₁ h₂]
    · rw [if_neg (Nat.lt_asymm hab), if_pos hab] at h₂
      exact absurd h₂ (by simp)

theorem strLt_irrefl (s : String) : strLt s s = false :=
  charListLt_irrefl s.data

theorem strLt_asymm {a b : String} (h : strLt a b = true) : strLt b a = false :=
  charListLt_asymm h

theorem strLt_connex {a b : String} (h₁ : strLt a b = false) (h₂ : strLt b a = false) :
    a = b :=
  String.ext (charListLt_connex h₁ h₂)

theorem strLt_trans {a b c : String} (h₁ : strLt a b = true) (h₂ : strLt b c = true) :
    strLt a c = true :=
  charListLt_trans h₁ h₂

/-! ## Helper lemmas: the selection loop -/

theorem pkBetter_refl (cnt : String → ℤ) (x : String) : pkBetter cnt x x :=
  Or.inr ⟨rfl, strLt_irrefl x⟩

theorem pkBetter_trans {cnt : String → ℤ} {x y z : String}
    (h₁ : pkBetter cnt x y) (h₂ : pkBetter cnt y z) : pkBetter cnt x z := by
  rcases h₁ with h₁ | ⟨h₁, h₁'⟩
  · rcases h₂ with h₂ | ⟨h₂, _⟩
    · exact Or.inl (h₁.trans h₂)
    · exact Or.inl (h₂ ▸ h₁)
  · rcases h₂ with h₂ | ⟨h₂, h₂'⟩
    · exact Or.inl (h₁ ▸ h₂)
    · refine Or.inr ⟨h₁.trans h₂, ?_⟩
      cases hzx : strLt z x with
      | false => rfl
      | true =>
        cases hxy : strLt x y with
        | true => exact absurd (strLt_trans hzx hxy) (by simp [h₂'])
        | false =>
          have heq : x = y := strLt_connex hxy h₁'
          rw [← heq] at h₂'
          exact absurd hzx (by simp [h₂'])

theorem pickStep_some_eq (cnt : String → ℤ) (b c : String) :
    pickStep cnt (some b) c =
      if cnt c < cnt b then some c
      else if cnt c = cnt b ∧ strLt c b = true then some c
      else some b := rfl

theorem pickStep_some {cnt : String → ℤ} {best : Option String} {c : String} :
    ∃ t, pickStep cnt best c = some t ∧ (best = some t ∨ t = c) ∧
      pkBetter cnt t c ∧ ∀ b, best = some b → pkBetter cnt t b := by
  match best with
  | none => exact ⟨c, rfl, Or.inr rfl, pkBetter_refl cnt c, by intro b hb; cases hb⟩
  | some b =>
    rw [pickStep_some_eq]
    by_cases h₁ : cnt c < cnt b
    · rw [if_pos h₁]
      exact ⟨c, rfl, Or.inr rfl, pkBetter_refl cnt c,
        by intro b' hb'; cases hb'; exact Or.inl h₁⟩
    · rw [if_neg h₁]
      by_cases h₂ : cnt c = cnt b ∧ strLt c b = true
      · rw [if_pos h₂]
        exact ⟨c, rfl, Or.inr rfl, pkBetter_refl cnt c,
          by intro b' hb'; cases hb'; exact Or.inr ⟨h₂.1, strLt_asymm h₂.2⟩⟩
      · rw [if_neg h₂]
        refine ⟨b, rfl, Or.inl rfl, ?_, by intro b' hb'; cases hb'; exact pkBetter_refl cnt b⟩
        rcases lt_trichotomy (cnt b) (cnt c) with h | h | h
        · exact Or.inl h
        · refine Or.inr ⟨h, ?_⟩
          cases hcb : strLt c b with
          | false => rfl
          | true => exact absurd ⟨h.symm, hcb⟩ h₂
        · exact absurd h (by exact h₁)

theorem pickFold_some (cnt : String → ℤ) :
    ∀ (cands : List String) (b : String),
    ∃ t, List.foldl (pickStep cnt) (some b) cands = some t ∧ (t = b ∨ t ∈ cands) ∧
      pkBetter cnt t b ∧ ∀ c ∈ cands, pkBetter cnt t c
  | [], b => ⟨b, rfl, Or.inl rfl, pkBetter_refl cnt b, by simp⟩
  | c :: rest, b => by
    rw [List.foldl_cons]
    obtain ⟨u, hu, hmem, hbc, hball⟩ := @pickStep_some cnt (some b) c
    rw [hu]
    obtain ⟨t, ht, hmem', htu, hall⟩ := pickFold_some cnt rest u
    refine ⟨t, ht, ?_, ?_, ?_⟩
    · rcases hmem' with h | h
      · subst h
        rcases hmem with h | h
        · exact Or.inl (Option.some.inj h.symm)
        · exact Or.inr (h ▸ List.mem_cons_self _ _)
      · exact Or.inr (List.mem_cons_of_mem _ h)
    · exact pkBetter_trans htu (hball b rfl)
    · intro x hx
      rcases List.mem_cons.mp hx with h | h
      · exact pkBetter_trans htu (h ▸ hbc)
      · exact hall x h

theorem pickLowestCount_nil (cnt : String → ℤ) : pickLowestCount cnt [] = none := rfl

theorem pickLowestCount_spec (cnt : String → ℤ) (cands : List String)
    (h : cands ≠ []) :
    ∃ t, pickLowestCount cnt cands = some t ∧ t ∈ cands ∧
      ∀ c ∈ cands, pkBetter cnt t c := by
  match cands with
  | [] => exact absurd rfl h
  | c :: rest =>
    unfold pickLowestCount
    rw [List.foldl_cons]
    show ∃ t, List.foldl (pickStep cnt) (pickStep cnt none c) rest = some t ∧ _
    obtain ⟨t, ht, hmem, htc, hall⟩ := pickFold_some cnt rest c
    refine ⟨t, ht, ?_, ?_⟩
    · rcases hmem with h | h
      · exact h ▸ List.mem_cons_self _ _
      · exact List.mem_cons_of_mem _ h
    · intro x hx
      rcases List.mem_cons.mp hx with h | h
      · exact h ▸ htc
      · exact hall x h

theorem pickLowestCount_mem {cnt : String → ℤ} {cands : List String} {t : String}
    (h : pickLowestCount cnt cands = some t) : t ∈ cands := by
  match cands with
  | [] => cases h
  | c :: rest =>
    obtain ⟨u, hu, hmem, -⟩ := pickLowestCount_spec cnt (c :: rest) (by simp)
    rw [h] at hu
    exact (Option.some.inj hu) ▸ hmem

/-! ## Helper lemmas: folds, filters, sorting, truncation -/

theorem foldl_guard_filter {α β : Type} (p : α → Bool) (f : β → α → β) :
    ∀ (l : List α) (init : β),
    l.foldl (fun acc x => if p x = true then f acc x else acc) init =
      (l.filter p).foldl f init
  | [], _ => rfl
  | x :: xs, init => by
    rw [List.foldl_cons, List.filter_cons]
    by_cases hp : p x = true
    · rw [if_pos hp, if_pos hp, List.foldl_cons]
      exact foldl_guard_filter p f xs (f init x)
    · rw [if_neg hp, if_neg hp]
      exact foldl_guard_filter p f xs init

theorem insertDescBy_perm {α : Type} (key : α → ℚ) (x : α) :
    ∀ l : List α, (insertDescBy key x l).Perm (x :: l)
  | [] => List.Perm.refl _
  | y :: ys => by
    unfold insertDescBy
    by_cases h : key y ≤ key x
    · rw [if_pos h]
    · rw [if_neg h]
      exact (List.Perm.cons y (insertDescBy_perm key x ys)).trans
        (List.Perm.swap x y ys)

theorem sortDescBy_perm {α : Type} (key : α → ℚ) :
    ∀ l : List α, (sortDescBy key l).Perm l
  | [] => List.Perm.refl _
  | x :: xs =>
    (insertDescBy_perm key x (sortDescBy key xs)).trans
      (List.Perm.cons x (sortDescBy_perm key xs))

theorem truncatePlan_sublist_perm (maxT : ℕ) (migs : List Migration) :
    ∃ l, (truncatePlan maxT migs).Sublist l ∧ l.Perm migs := by
  unfold truncatePlan
  by_cases h : maxT < migs.length
  · rw [if_pos h]
    by_cases h₂ : maxT ≤ (migs.filter isAAMig).length
    · rw [if_pos h₂]
      refine ⟨migs.filter isAAMig ++ migs.filter (fun mg => !isAAMig mg), ?_, ?_⟩
      · exact (List.take_sublist _ _).trans (List.sublist_append_left _ _)
      · exact List.filter_append_perm _ _
    · rw [if_neg h₂]
      refine ⟨migs.filter isAAMig ++ migs.filter (fun mg => !isAAMig mg), ?_, ?_⟩
      · exact List.Sublist.append_left (List.take_sublist _ _) _
      · exact List.filter_append_perm _ _
  · rw [if_neg h]
    exact ⟨migs, List.Sublist.refl _, List.Perm.refl _⟩

/-! ## Claim C10 -/

/-- C10: for every VM whose name is shorter than 3 characters,
`get_preferred_host_for_vm` returns no target, regardless of cluster state or
planned moves — even though the anti-affinity grouping itself accepts every VM
with a nonempty name. -/
theorem preferred_host_none_for_short_name (cs : ClusterState) (vm : VMach)
    (plans : List Migration) (h : vm.name.length < 3) :
    getPreferredHostForVm cs vm plans = none ∧
      (vm ∈ cs.vms → 1 ≤ vm.name.length → vm ∈ groupOf cs (aaKey vm.name)) := by
  constructor
  · unfold getPreferredHostForVm
    rw [if_pos h]
  · intro hmem hlen
    unfold groupOf
    rw [List.mem_filter]
    exact ⟨hmem, by simp [hlen]⟩

/-- C10 witness: a two-character VM name on a populated snapshot. -/
theorem preferred_host_none_for_short_name_witness :
    ("ab" : String).length < 3 ∧
      (getPreferredHostForVm csWeb ⟨"ab", some "hA", false⟩ [] = none ∧
        (⟨"ab", some "hA", false⟩ ∈ csWeb.vms → 1 ≤ ("ab" : String).length →
          (⟨"ab", some "hA", false⟩ : VMach) ∈ groupOf csWeb (aaKey "ab"))) :=
  ⟨by decide, preferred_host_none_for_short_name csWeb ⟨"ab", some "hA", false⟩ [] (by decide)⟩

/-! ## Claim C1 -/

/-- C1: the balancing-pass safety check keys its group lookup by the Python
slice `name[:-2]`, not by the digit-stripping anti-affinity key used for
grouping and violation detection.  On `csWeb`, moving `web1` onto `hB` (which
already holds `web2` and `web3`) is declared safe because the sliced key
`"we"` misses the group stored under `"web"`; the same check performed under
the digit-stripping key rejects the move. -/
theorem aa_safety_check_key_mismatch :
    isAntiAffinitySafe csWeb [] vmWeb1 "hB" = true ∧
    isAntiAffinitySafeAAKey csWeb [] vmWeb1 "hB" = false ∧
    sliceDropLast2 vmWeb1.name = "we" ∧
    aaKey vmWeb1.name = "web" ∧
    groupOf csWeb (sliceDropLast2 vmWeb1.name) = [] := by decide

/-! ## Claim C3 -/

/-- C3 counterexample: with original aggressiveness 4, multiplier 2 and
iteration 3, the pass uses aggressiveness `max(1, int(4 / 2)) = 2`, while the
claimed formula `max(1, ⌊4 / 2^(3−1)⌋)` yields 1. -/
theorem iteration_aggressiveness_counterexample :
    iterationAggressiveness 4 2 3 = 2 ∧
    (max 1 (pyInt ((4 : ℚ) / 2 ^ (3 - 1 : ℕ)))).toNat = 1 := by
  constructor
  · have h : pyInt ((4 : ℚ) / 2) = 2 := by norm_num [pyInt]
    simp [iterationAggressiveness, adjustedAggressiveness, h]
  · norm_num [pyInt]

/-- C3 amended: on every iteration `i ≥ 2` the aggressiveness handed to the
single-pass planner equals `max(1, int(original / multiplier))` — one division
by the multiplier, independent of the iteration index — and iteration 1 (and,
after restoration, every iteration) starts from the original value. -/
theorem iteration_aggressiveness_single_division (agg : ℕ) (mult : ℚ) (i : ℕ)
    (h : 2 ≤ i) :
    iterationAggressiveness agg mult i = (max 1 (pyInt ((agg : ℚ) / mult))).toNat ∧
    iterationAggressiveness agg mult 1 = agg := by
  constructor
  · unfold iterationAggressiveness
    rw [if_pos (by omega)]
    rfl
  · rfl

/-- C3 witness: aggressiveness 5, the default multiplier 1.05, iteration 2. -/
theorem iteration_aggressiveness_single_division_witness :
    2 ≤ 2 ∧
      (iterationAggressiveness 5 (105 / 100) 2 =
          (max 1 (pyInt ((5 : ℚ) / (105 / 100)))).toNat ∧
        iterationAggressiveness 5 (105 / 100) 1 = 5) :=
  ⟨by decide, iteration_aggressiveness_single_division 5 (105 / 100) 2 (by decide)⟩

/-! ## Claim C4 -/

/-- C4 counterexample: for a VM with no `vm_metrics` entry, both fit checks
reject the move outright, although the same checks with an explicit all-zero
metrics entry would accept it — missing per-entity metrics are not treated as
zero by the fit checks. -/
theorem fit_check_missing_metrics_counterexample :
    wouldFitOnHost csFitMissing vmNoMetrics "h1" = false ∧
    wouldFitOnHostSoft csFitMissing vmNoMetrics "h1" 95 95 = false ∧
    wouldFitOnHost csFitZero vmNoMetrics "h1" = true ∧
    wouldFitOnHostSoft csFitZero vmNoMetrics "h1" 95 95 = true := by
  refine ⟨?_, ?_, ?_, ?_⟩ <;>
    simp [wouldFitOnHost, wouldFitOnHostSoft, csFitZero, csFitMissing, vmNoMetrics,
      projectedPcts, vmCpuReq, vmMemReq, List.lookup]

/-- C4 amended: when the metrics entry of the VM or of the host is missing
altogether, both fit checks reject the move (return false); only usage keys
missing inside a present entry default to zero. -/
theorem fit_checks_reject_missing_metrics (cs : ClusterState) (vm : VMach)
    (host : String) (cpuT memT : ℚ)
    (h : cs.vmMetrics.lookup vm.name = none ∨ cs.hostMetrics.lookup host = none) :
    wouldFitOnHost cs vm host = false ∧
      wouldFitOnHostSoft cs vm host cpuT memT = false := by
  constructor
  · unfold wouldFitOnHost
    rcases h with h | h
    · rw [h]
    · rw [h]
      cases cs.vmMetrics.lookup vm.name <;> rfl
  · unfold wouldFitOnHostSoft
    rcases h with h | h
    · rw [h]
    · rw [h]
      cases cs.vmMetrics.lookup vm.name <;> rfl

/-- C4 witness: the concrete snapshot with the VM metrics entry absent. -/
theorem fit_checks_reject_missing_metrics_witness :
    (csFitMissing.vmMetrics.lookup vmNoMetrics.name = none ∨
        csFitMissing.hostMetrics.lookup "h1" = none) ∧
      (wouldFitOnHost csFitMissing vmNoMetrics "h1" = false ∧
        wouldFitOnHostSoft csFitMissing vmNoMetrics "h1" 95 95 = false) :=
  ⟨Or.inl (by decide),
    fit_checks_reject_missing_metrics csFitMissing vmNoMetrics "h1" 95 95
      (Or.inl (by decide))⟩

/-! ## Claim C7 -/

/-- C7: whenever the combined plan exceeds the migration budget, the truncated
plan has exactly `max_total_migrations` entries and equals the first
`max_total_migrations` entries of "all anti-affinity moves in order, then all
balancing moves in order"; in particular, when the anti-affinity moves alone
reach the budget the result is the first `max_total_migrations` of them, and
otherwise it is all anti-affinity moves followed by the leading balancing
moves that fill the remaining slots. -/
theorem truncation_spec (maxT : ℕ) (migs : List Migration) (h : maxT < migs.length) :
    (truncatePlan maxT migs).length = maxT ∧
    truncatePlan maxT migs =
      (migs.filter isAAMig ++ migs.filter (fun mg => !isAAMig mg)).take maxT ∧
    (maxT ≤ (migs.filter isAAMig).length →
      truncatePlan maxT migs = (migs.filter isAAMig).take maxT) ∧
    ((migs.filter isAAMig).length < maxT →
      truncatePlan maxT migs = migs.filter isAAMig ++
        (migs.filter (fun mg => !isAAMig mg)).take
          (maxT - (migs.filter isAAMig).length)) := by
  have hlen : (migs.filter isAAMig).length +
      (migs.filter (fun mg => !isAAMig mg)).length = migs.length := by
    have hp := (List.filter_append_perm isAAMig migs).length_eq
    simpa [List.length_append] using hp
  unfold truncatePlan
  rw [if_pos h]
  by_cases h₂ : maxT ≤ (migs.filter isAAMig).length
  · rw [if_pos h₂]
    refine ⟨?_, ?_, fun _ => rfl, fun hc => absurd h₂ (by omega)⟩
    · rw [List.length_take]
      omega
    · rw [List.take_append_eq_append_take]
      have : maxT - (migs.filter isAAMig).length = 0 := by omega
      rw [this, List.take_zero, List.append_nil]
  · rw [if_neg h₂]
    refine ⟨?_, ?_, fun hc => absurd hc h₂, fun _ => rfl⟩
    · rw [List.length_append, List.length_take]
      omega
    · have h3 : (migs.filter isAAMig).length ≤ maxT := by omega
      rw [List.take_append_eq_append_take,
        @List.take_of_length_le _ maxT (migs.filter isAAMig) h3]

/-- C7 witness: a three-entry plan against a budget of two. -/
theorem truncation_spec_witness :
    2 < truncExample.length ∧
      ((truncatePlan 2 truncExample).length = 2 ∧
      truncatePlan 2 truncExample =
        (truncExample.filter isAAMig ++
          truncExample.filter (fun mg => !isAAMig mg)).take 2 ∧
      (2 ≤ (truncExample.filter isAAMig).length →
        truncatePlan 2 truncExample = (truncExample.filter isAAMig).take 2) ∧
      ((truncExample.filter isAAMig).length < 2 →
        truncatePlan 2 truncExample = truncExample.filter isAAMig ++
          (truncExample.filter (fun mg => !isAAMig mg)).take
            (2 - (truncExample.filter isAAMig).length))) :=
  ⟨by decide, truncation_spec 2 truncExample (by decide)⟩

/-! ## Claim C9 -/

theorem getRPL_eq_map : ∀ hosts : List HostDict,
    getResourcePercentageLists hosts =
      ⟨hosts.map (fun h => pct h.cpu_usage h.cpu_capacity),
       hosts.map (fun h => pct h.memory_usage h.memory_capacity),
       hosts.map (fun h => pct h.disk_io_usage h.disk_io_capacity),
       hosts.map (fun h => pct h.network_io_usage h.network_capacity)⟩
  | [] => rfl
  | h :: t => by
    unfold getResourcePercentageLists
    rw [getRPL_eq_map t]
    simp [List.map_cons]

theorem getD_map_of_lt {α β : Type} (f : α → β) (l : List α) (i : ℕ)
    (hi : i < l.length) (d : β) : (l.map f).getD i d = f (l.get ⟨i, hi⟩) := by
  rw [List.getD_eq_getElem?_getD, List.getElem?_map, List.getElem?_eq_getElem hi]
  rfl

/-- C9: the percentage lists carry one entry per host; for every host and
resource the entry is `usage / capacity * 100` when the capacity is positive
and 0 when the capacity is 0.  The zero-capacity branch never divides, and ℚ
division is total, so no divide-by-zero error can arise. -/
theorem resource_percentages_by_host (hosts : List HostDict) (i : ℕ)
    (hi : i < hosts.length) :
    let r := getResourcePercentageLists hosts
    let h := hosts.get ⟨i, hi⟩
    (r.cpu.length = hosts.length ∧ r.memory.length = hosts.length ∧
      r.disk.length = hosts.length ∧ r.network.length = hosts.length) ∧
    (0 < h.cpu_capacity → r.cpu.getD i 0 = h.cpu_usage / h.cpu_capacity * 100) ∧
    (h.cpu_capacity = 0 → r.cpu.getD i 0 = 0) ∧
    (0 < h.memory_capacity →
      r.memory.getD i 0 = h.memory_usage / h.memory_capacity * 100) ∧
    (h.memory_capacity = 0 → r.memory.getD i 0 = 0) ∧
    (0 < h.disk_io_capacity →
      r.disk.getD i 0 = h.disk_io_usage / h.disk_io_capacity * 100) ∧
    (h.disk_io_capacity = 0 → r.disk.getD i 0 = 0) ∧
    (0 < h.network_capacity →
      r.network.getD i 0 = h.network_io_usage / h.network_capacity * 100) ∧
    (h.network_capacity = 0 → r.network.getD i 0 = 0) := by
  rw [getRPL_eq_map]
  refine ⟨⟨?_, ?_, ?_, ?_⟩, ?_, ?_, ?_, ?_, ?_, ?_, ?_, ?_⟩ <;>
    simp only [List.length_map, getD_map_of_lt _ hosts i hi]
  · intro hc
    rw [pct, if_pos hc]
  · intro hc
    rw [pct, hc, if_neg (lt_irrefl 0)]
  · intro hc
    rw [pct, if_pos hc]
  · intro hc
    rw [pct, hc, if_neg (lt_irrefl 0)]
  · intro hc
    rw [pct, if_pos hc]
  · intro hc
    rw [pct, hc, if_neg (lt_irrefl 0)]
  · intro hc
    rw [pct, if_pos hc]
  · intro hc
    rw [pct, hc, if_neg (lt_irrefl 0)]

/-- C9 witness: the two-host evaluator list, first host (with one zero
capacity among its resources). -/
theorem resource_percentages_by_host_witness :
    0 < leExample.length ∧
      (let r := getResourcePercentageLists leExample
      let h := leExample.get ⟨0, by decide⟩
      (r.cpu.length = leExample.length ∧ r.memory.length = leExample.length ∧
        r.disk.length = leExample.length ∧ r.network.length = leExample.length) ∧
      (0 < h.cpu_capacity → r.cpu.getD 0 0 = h.cpu_usage / h.cpu_capacity * 100) ∧
      (h.cpu_capacity = 0 → r.cpu.getD 0 0 = 0) ∧
      (0 < h.memory_capacity →
        r.memory.getD 0 0 = h.memory_usage / h.memory_capacity * 100) ∧
      (h.memory_capacity = 0 → r.memory.getD 0 0 = 0) ∧
      (0 < h.disk_io_capacity →
        r.disk.getD 0 0 = h.disk_io_usage / h.disk_io_capacity * 100) ∧
      (h.disk_io_capacity = 0 → r.disk.getD 0 0 = 0) ∧
      (0 < h.network_capacity →
        r.network.getD 0 0 = h.network_io_usage / h.network_capacity * 100) ∧
      (h.network_capacity = 0 → r.network.getD 0 0 = 0)) :=
  ⟨by decide, resource_percentages_by_host leExample 0 (by decide)⟩

/-! ## Claim C6 -/

theorem mem_groupOf {cs : ClusterState} {k : String} {v : VMach} :
    v ∈ groupOf cs k ↔ v ∈ cs.vms ∧ 1 ≤ v.name.length ∧ aaKey v.name = k := by
  unfold groupOf
  rw [List.mem_filter, decide_eq_true_eq]

theorem mem_groupKeys {cs : ClusterState} {v : VMach} (hv : v ∈ cs.vms)
    (hlen : 1 ≤ v.name.length) : aaKey v.name ∈ groupKeys cs := by
  unfold groupKeys
  rw [List.mem_dedup, List.mem_map]
  exact ⟨v, List.mem_filter.mpr ⟨hv, by simp [hlen]⟩, rfl⟩

/-- C6: with fewer than two active hosts the violation list is empty; it never
repeats a VM; and a VM is reported exactly when its own anti-affinity group
(keyed by its digit-stripped name) has a per-host count spread above 1 across
the active hosts and the VM sits on an active host whose count attains the
maximum.  (The source deduplicates via `list(set(...))`, whose order is
unspecified; every property stated here is order-insensitive.) -/
theorem violations_characterization (cs : ClusterState) :
    (calcViolations cs).Nodup ∧
    (cs.hosts.length ≤ 1 → calcViolations cs = []) ∧
    ∀ v : VMach, v ∈ calcViolations cs ↔
      (1 < cs.hosts.length ∧ v ∈ groupOf cs (aaKey v.name) ∧
        1 < maxCountOn cs (groupOf cs (aaKey v.name)) -
            minCountOn cs (groupOf cs (aaKey v.name)) ∧
        ∃ h ∈ cs.hosts, v.host = some h ∧
          countOn (groupOf cs (aaKey v.name)) h =
            maxCountOn cs (groupOf cs (aaKey v.name))) := by
  refine ⟨?_, ?_, ?_⟩
  · unfold calcViolations
    split
    · exact List.nodup_nil
    · exact List.nodup_dedup _
  · intro hle
    unfold calcViolations
    rw [if_pos hle]
  · intro v
    by_cases hlen : cs.hosts.length ≤ 1
    · constructor
      · intro hv
        unfold calcViolations at hv
        rw [if_pos hlen] at hv
        cases hv
      · intro hv
        omega
    · have hlt : 1 < cs.hosts.length := by omega
      unfold calcViolations
      rw [if_neg hlen, List.mem_dedup, List.mem_flatMap]
      constructor
      · rintro ⟨k, hk, hbody⟩
        by_cases hplaced : (placedInGroup cs (groupOf cs k)).length = 0
        · rw [if_pos hplaced] at hbody
          cases hbody
        · rw [if_neg hplaced] at hbody
          by_cases hspread :
              1 < maxCountOn cs (groupOf cs k) - minCountOn cs (groupOf cs k)
          · rw [if_pos hspread] at hbody
            rw [List.mem_flatMap] at hbody
            obtain ⟨h, hh, hin⟩ := hbody
            by_cases hcnt : countOn (groupOf cs k) h = maxCountOn cs (groupOf cs k)
            · rw [if_pos hcnt] at hin
              rw [List.mem_filter] at hin
              obtain ⟨hvg, hvh⟩ := hin
              have hkey : k = aaKey v.name := (mem_groupOf.mp hvg).2.2.symm
              subst hkey
              refine ⟨hlt, hvg, hspread, h, List.mem_dedup.mp hh, ?_, hcnt⟩
              exact eq_of_beq hvh
            · rw [if_neg hcnt] at hin
              cases hin
          · rw [if_neg hspread] at hbody
            cases hbody
      · rintro ⟨-, hvg, hspread, h, hh, hvh, hcnt⟩
        refine ⟨aaKey v.name, ?_, ?_⟩
        · exact mem_groupKeys (mem_groupOf.mp hvg).1 (mem_groupOf.mp hvg).2.1
        · have hplaced : (placedInGroup cs (groupOf cs (aaKey v.name))).length ≠ 0 := by
            have : v ∈ placedInGroup cs (groupOf cs (aaKey v.name)) := by
              unfold placedInGroup
              rw [List.mem_filter]
              refine ⟨hvg, ?_⟩
              rw [hvh]
              simpa using hh
            intro hzero
            rw [List.length_eq_zero] at hzero
            rw [hzero] at this
            cases this
          rw [if_neg hplaced, if_pos hspread, List.mem_flatMap]
          refine ⟨h, List.mem_dedup.mpr hh, ?_⟩
          rw [if_pos hcnt, List.mem_filter]
          exact ⟨hvg, by simp [hvh]⟩

/-- C6 witness: the fully concentrated `app` snapshot, where all three VMs on
`H1` are violators. -/
theorem violations_characterization_witness :
    (calcViolations csApp).Nodup ∧ vmApp1 ∈ calcViolations csApp :=
  ⟨(violations_characterization csApp).1,
    ((violations_characterization csApp).2.2 vmApp1).mpr (by decide)⟩

/-! ## Claim C8 -/

theorem lookup_enumFrom_map {β : Type} (f : ℕ → String → β) :
    ∀ (names : List String) (k i : ℕ) (hi : i < names.length), names.Nodup →
    ((names.enumFrom k).map (fun p => (p.2, f p.1 p.2))).lookup (names.get ⟨i, hi⟩) =
      some (f (k + i) (names.get ⟨i, hi⟩))
  | [], _, i, hi, _ => absurd hi (by simp)
  | n :: rest, k, 0, _, _ => by
    simp [List.enumFrom, List.lookup]
  | n :: rest, k, i + 1, hi, hnd => by
    have hi' : i < rest.length := Nat.lt_of_succ_lt_succ hi
    have hget : (n :: rest).get ⟨i + 1, hi⟩ = rest.get ⟨i, hi'⟩ := rfl
    have hne : (rest.get ⟨i, hi'⟩ == n) = false := by
      rw [beq_eq_false_iff_ne]
      intro heq
      exact (List.nodup_cons.mp hnd).1 (heq ▸ rest.get_mem i hi')
    rw [hget]
    show List.lookup _ ((n, f k n) :: (rest.enumFrom (k + 1)).map _) = _
    rw [List.lookup_cons]
    rw [hne]
    rw [lookup_enumFrom_map f rest (k + 1) i hi' (List.nodup_cons.mp hnd).2]
    have harith : k + 1 + i = k + (i + 1) := by omega
    rw [harith]

theorem getRPL_disk (le : List HostDict) :
    (getResourcePercentageLists le).disk =
      le.map (fun h => pct h.disk_io_usage h.disk_io_capacity) := by
  rw [getRPL_eq_map]

theorem getRPL_network (le : List HostDict) :
    (getResourcePercentageLists le).network =
      le.map (fun h => pct h.network_io_usage h.network_capacity) := by
  rw [getRPL_eq_map]

theorem simEntryVal_disk (cs : ClusterState) (fl : String → ℚ × ℚ) (r : PctLists)
    (j : ℕ) (h : String) : (simEntryVal cs fl r j h).disk = r.disk.getD j 0 := by
  unfold simEntryVal
  split <;> rfl

theorem simEntryVal_network (cs : ClusterState) (fl : String → ℚ × ℚ) (r : PctLists)
    (j : ℕ) (h : String) : (simEntryVal cs fl r j h).network = r.network.getD j 0 := by
  unfold simEntryVal
  split <;> rfl

theorem evalNamesForSim_eq (cs : ClusterState) (le : List HostDict)
    (hne : ∀ hd ∈ le, hd.name ≠ "") (hle : le ≠ []) :
    evalNamesForSim cs le = le.map (fun hd => hd.name) := by
  unfold evalNamesForSim
  have hfil : le.filter (fun h => !(h.name == "")) = le := by
    rw [List.filter_eq_self]
    intro hd hmem
    simpa using hne hd hmem
  rw [hfil]
  rw [if_neg]
  rintro ⟨hmap, -⟩
  exact hle (List.map_eq_nil_iff.mp hmap)

/-- C8: the load map produced by simulating any list of moves carries, for
every evaluator host, the disk and network percentages computed from the
unmodified snapshot by `get_resource_percentage_lists` — only the CPU and
memory entries depend on the simulated moves.  (Hosts are assumed to carry
distinct nonempty names so that each host corresponds to one map key.) -/
theorem sim_load_map_preserves_disk_network (cs : ClusterState) (le : List HostDict)
    (moves : List Migration) (i : ℕ) (hcs : cs.hosts ≠ []) (hi : i < le.length)
    (hne : ∀ hd ∈ le, hd.name ≠ "")
    (hnd : (le.map (fun hd => hd.name)).Nodup) :
    ∃ p, ((getSimulatedLoadData cs le moves).loadMap).lookup
        (le.get ⟨i, hi⟩).name = some p ∧
      p.disk = pct (le.get ⟨i, hi⟩).disk_io_usage (le.get ⟨i, hi⟩).disk_io_capacity ∧
      p.network =
        pct (le.get ⟨i, hi⟩).network_io_usage (le.get ⟨i, hi⟩).network_capacity := by
  have hle : le ≠ [] := by
    intro h
    subst h
    simp at hi
  have hi' : i < (le.map (fun hd => hd.name)).length := by simpa using hi
  have hget : (le.map (fun hd => hd.name)).get ⟨i, hi'⟩ = (le.get ⟨i, hi⟩).name := by
    simp
  unfold getSimulatedLoadData
  rw [if_neg hcs, evalNamesForSim_eq cs le hne hle]
  have hmain := lookup_enumFrom_map
    (simEntryVal cs (simAbsLoads cs moves) (getResourcePercentageLists le))
    (le.map (fun hd => hd.name)) 0 i hi' hnd
  rw [hget] at hmain
  refine ⟨simEntryVal cs (simAbsLoads cs moves) (getResourcePercentageLists le)
    (0 + i) (le.get ⟨i, hi⟩).name, ?_, ?_, ?_⟩
  · exact hmain
  · rw [simEntryVal_disk, getRPL_disk]
    simp only [Nat.zero_add]
    rw [getD_map_of_lt _ le i hi]
  · rw [simEntryVal_network, getRPL_network]
    simp only [Nat.zero_add]
    rw [getD_map_of_lt _ le i hi]

/-- C8 witness: the two-host evaluator list against the `csWeb` snapshot, one
simulated move, first host. -/
theorem sim_load_map_preserves_disk_network_witness :
    csWeb.hosts ≠ [] ∧ 0 < leExample.length ∧
      (∃ p, ((getSimulatedLoadData csWeb leExample
            [⟨vmWeb1, "hB", "Anti-Affinity"⟩]).loadMap).lookup
          (leExample.get ⟨0, by decide⟩).name = some p ∧
        p.disk = pct (leExample.get ⟨0, by decide⟩).disk_io_usage
          (leExample.get ⟨0, by decide⟩).disk_io_capacity ∧
        p.network = pct (leExample.get ⟨0, by decide⟩).network_io_usage
          (leExample.get ⟨0, by decide⟩).network_capacity) :=
  ⟨by decide, by decide,
    sim_load_map_preserves_disk_network csWeb leExample
      [⟨vmWeb1, "hB", "Anti-Affinity"⟩] 0 (by decide) (by decide)
      (by decide) (by decide)⟩

/-! ## Claim C5 -/

theorem findBetterThanSource_eq_pick (cs : ClusterState) (f : String → ℤ)
    (src : String) (srcCount : ℤ) :
    findBetterThanSourceHost cs f src srcCount =
      pickLowestCount (fun h => dGet cs.hosts f h 0)
        (cs.hosts.filter (fun t =>
          !(t == src) && decide (dGet cs.hosts f t 0 < srcCount))) := by
  unfold findBetterThanSourceHost pickLowestCount
  rw [← foldl_guard_filter]
  congr 1
  funext best t
  by_cases h1 : t = src
  · rw [if_pos h1]
    subst h1
    simp
  · rw [if_neg h1]
    by_cases h2 : dGet cs.hosts f t 0 < srcCount
    · rw [if_pos h2, if_pos]
      simp [h1, h2]
    · rw [if_neg h2, if_neg]
      simp [h1, h2]

/-- C5: under the guards of `get_preferred_host_for_vm` (usable name, nonempty
group, known source host, at least two hosts), target selection is two-staged
over the hosts other than the source, on group counts adjusted by the prior
planned moves.  Stage 1 considers exactly the candidates whose simulated move
leaves the group spread at most 1 and returns the candidate minimal in
(adjusted count, name); when stage 1 has no candidate, stage 2 returns the
candidate minimal in (adjusted count, name) among those whose adjusted count
is strictly below the source host's; when both stages are empty, nothing is
returned. -/
theorem preferred_host_two_stage (cs : ClusterState) (vm : VMach)
    (plans : List Migration) (src : String) (hname : 3 ≤ vm.name.length)
    (hgroup : groupOf cs (aaKey vm.name) ≠ []) (hsrc : vm.host = some src)
    (hhosts : 1 < cs.hosts.length) :
    let adj := adjustedCounts cs (aaKey vm.name) plans
      (baseGroupCounts (groupOf cs (aaKey vm.name)))
    let cnt := fun h => dGet cs.hosts adj h 0
    let cands1 := cs.hosts.filter (fun t =>
      !(t == src) && isPerfectBalanceCandidate cs adj src t)
    let cands2 := cs.hosts.filter (fun t =>
      !(t == src) && decide (cnt t < cnt src))
    (cands1 ≠ [] → ∃ t, getPreferredHostForVm cs vm plans = some t ∧ t ∈ cands1 ∧
      ∀ c ∈ cands1, pkBetter cnt t c) ∧
    (cands1 = [] → cands2 ≠ [] →
      ∃ t, getPreferredHostForVm cs vm plans = some t ∧ t ∈ cands2 ∧
        ∀ c ∈ cands2, pkBetter cnt t c) ∧
    (cands1 = [] → cands2 = [] → getPreferredHostForVm cs vm plans = none) := by
  intro adj cnt cands1 cands2
  have hred : getPreferredHostForVm cs vm plans =
      match findPerfectBalanceHost cs adj src with
      | some t => some t
      | none => findBetterThanSourceHost cs adj src (dGet cs.hosts adj src 0) := by
    unfold getPreferredHostForVm
    rw [if_neg (by omega), hsrc]
    simp only
    rw [if_neg (by simpa [List.isEmpty_iff] using hgroup), if_neg (by omega)]
  have hstage1 : findPerfectBalanceHost cs adj src = pickLowestCount cnt cands1 := rfl
  have hstage2 : findBetterThanSourceHost cs adj src (dGet cs.hosts adj src 0) =
      pickLowestCount cnt cands2 :=
    findBetterThanSource_eq_pick cs adj src (dGet cs.hosts adj src 0)
  refine ⟨?_, ?_, ?_⟩
  · intro hne
    obtain ⟨t, hpick, hmem, hall⟩ := pickLowestCount_spec cnt cands1 hne
    refine ⟨t, ?_, hmem, hall⟩
    rw [hred, hstage1, hpick]
  · intro h1 hne
    obtain ⟨t, hpick, hmem, hall⟩ := pickLowestCount_spec cnt cands2 hne
    refine ⟨t, ?_, hmem, hall⟩
    rw [hred, hstage1, h1, pickLowestCount_nil]
    simp only
    rw [hstage2, hpick]
  · intro h1 h2
    rw [hred, hstage1, h1, pickLowestCount_nil]
    simp only
    rw [hstage2, h2, pickLowestCount_nil]

/-- C5 witness: `app02` on the concentrated snapshot with `app01 → H2` already
planned; stage 1 is nonempty (it contains `H3`). -/
theorem preferred_host_two_stage_witness :
    3 ≤ vmApp2.name.length ∧ groupOf csApp (aaKey vmApp2.name) ≠ [] ∧
      vmApp2.host = some "H1" ∧ 1 < csApp.hosts.length ∧
      (let adj := adjustedCounts csApp (aaKey vmApp2.name)
        [⟨vmApp1, "H2", "Anti-Affinity"⟩]
        (baseGroupCounts (groupOf csApp (aaKey vmApp2.name)))
      let cnt := fun h => dGet csApp.hosts adj h 0
      let cands1 := csApp.hosts.filter (fun t =>
        !(t == "H1") && isPerfectBalanceCandidate csApp adj "H1" t)
      let cands2 := csApp.hosts.filter (fun t =>
        !(t == "H1") && decide (cnt t < cnt "H1"))
      (cands1 ≠ [] →
        ∃ t, getPreferredHostForVm csApp vmApp2 [⟨vmApp1, "H2", "Anti-Affinity"⟩] =
            some t ∧ t ∈ cands1 ∧ ∀ c ∈ cands1, pkBetter cnt t c) ∧
      (cands1 = [] → cands2 ≠ [] →
        ∃ t, getPreferredHostForVm csApp vmApp2 [⟨vmApp1, "H2", "Anti-Affinity"⟩] =
            some t ∧ t ∈ cands2 ∧ ∀ c ∈ cands2, pkBetter cnt t c) ∧
      (cands1 = [] → cands2 = [] →
        getPreferredHostForVm csApp vmApp2 [⟨vmApp1, "H2", "Anti-Affinity"⟩] = none)) :=
  ⟨by decide, by decide, by decide, by decide,
    preferred_host_two_stage csApp vmApp2 [⟨vmApp1, "H2", "Anti-Affinity"⟩] "H1"
      (by decide) (by decide) (by decide) (by decide)⟩

/-! ## Claim C2: validity of selected targets -/

theorem findPerfectBalanceHost_some {cs : ClusterState} {f : String → ℤ}
    {src t : String} (h : findPerfectBalanceHost cs f src = some t) :
    t ∈ cs.hosts ∧ t ≠ src := by
  have hmem : t ∈ cs.hosts.filter (fun u =>
      !(u == src) && isPerfectBalanceCandidate cs f src u) :=
    pickLowestCount_mem h
  rw [List.mem_filter] at hmem
  refine ⟨hmem.1, ?_⟩
  have hb := hmem.2
  simp only [Bool.and_eq_true, Bool.not_eq_true', beq_eq_false_iff_ne] at hb
  exact hb.1

theorem findBetterThanSourceHost_some {cs : ClusterState} {f : String → ℤ}
    {src : String} {srcCount : ℤ} {t : String}
    (h : findBetterThanSourceHost cs f src srcCount = some t) :
    t ∈ cs.hosts ∧ t ≠ src := by
  rw [findBetterThanSource_eq_pick] at h
  have hmem := pickLowestCount_mem h
  rw [List.mem_filter] at hmem
  refine ⟨hmem.1, ?_⟩
  have hb := hmem.2
  simp only [Bool.and_eq_true, Bool.not_eq_true', beq_eq_false_iff_ne] at hb
  exact hb.1

theorem getPreferredHostForVm_some {cs : ClusterState} {vm : VMach}
    {plans : List Migration} {t : String}
    (h : getPreferredHostForVm cs vm plans = some t) :
    ∃ src, vm.host = some src ∧ t ∈ cs.hosts ∧ t ≠ src := by
  unfold getPreferredHostForVm at h
  by_cases h1 : vm.name.length < 3
  · rw [if_pos h1] at h
    cases h
  · rw [if_neg h1] at h
    simp only at h
    by_cases h2 : (groupOf cs (aaKey vm.name)).isEmpty = true
    · rw [if_pos h2] at h
      cases h
    · rw [if_neg h2] at h
      cases hv : vm.host with
      | none =>
        rw [hv] at h
        cases h
      | some src =>
        rw [hv] at h
        simp only at h
        by_cases h3 : cs.hosts.length ≤ 1
        · rw [if_pos h3] at h
          cases h
        · rw [if_neg h3] at h
          cases hs : findPerfectBalanceHost cs (adjustedCounts cs (aaKey vm.name)
              plans (baseGroupCounts (groupOf cs (aaKey vm.name)))) src with
          | some u =>
            rw [hs] at h
            obtain ⟨hmem, hne⟩ := findPerfectBalanceHost_some hs
            cases h
            exact ⟨src, rfl, hmem, hne⟩
          | none =>
            rw [hs] at h
            obtain ⟨hmem, hne⟩ := findBetterThanSourceHost_some h
            exact ⟨src, rfl, hmem, hne⟩

theorem findBetterHostForBalancing_some {m : Manager} {cs : ClusterState}
    {vm : VMach} {src : String} {srcMet : SimPct} {hint : Option Res}
    {problematic : List Res} {decisionMap : List (String × SimPct)}
    {safety : List Migration} {t : String}
    (h : findBetterHostForBalancing m cs vm src srcMet hint problematic
      decisionMap safety = some t) :
    t ∈ cs.hosts ∧ t ≠ src := by
  unfold findBetterHostForBalancing at h
  simp only [Option.map_eq_some'] at h
  obtain ⟨q, hq, hqt⟩ := h
  have hqmem := List.mem_of_mem_head? (Option.mem_def.mpr hq)
  have hqpot := (sortDescBy_perm (fun p : String × ℚ => p.2) _).mem_iff.mp hqmem
  rw [List.mem_filterMap] at hqpot
  obtain ⟨u, hu, hbody⟩ := hqpot
  by_cases h1 : u = src
  · rw [if_pos h1] at hbody
    cases hbody
  · rw [if_neg h1] at hbody
    by_cases h2 : wouldFitOnHost cs vm u = false
    · rw [if_pos h2] at hbody
      cases hbody
    · rw [if_neg h2] at hbody
      by_cases h3 : m.ignoreAntiAffinity = false ∧ isAntiAffinitySafe cs safety vm u = false
      · rw [if_pos h3] at hbody
        cases hbody
      · rw [if_neg h3] at hbody
        cases hlk : decisionMap.lookup u with
        | none =>
          rw [hlk] at hbody
          cases hbody
        | some tmet =>
          rw [hlk] at hbody
          simp only at hbody
          cases hint with
          | none =>
            rw [if_neg (by simp)] at hbody
            by_cases h5 : 0 < balanceScore problematic tmet
            · rw [if_pos h5] at hbody
              cases hbody
              exact hqt ▸ ⟨hu, h1⟩
            · rw [if_neg h5] at hbody
              cases hbody
          | some r =>
            by_cases h4 : decide (tmet.of r < srcMet.of r -
                getThresholds m.aggressiveness r / 3) = false
            · rw [if_pos h4] at hbody
              cases hbody
            · rw [if_neg h4] at hbody
              by_cases h5 : 0 < balanceScore problematic tmet
              · rw [if_pos h5] at hbody
                cases hbody
                exact hqt ▸ ⟨hu, h1⟩
              · rw [if_neg h5] at hbody
                cases hbody

theorem selectVmsToMove_mem {m : Manager} {cs : ClusterState} {src : String}
    {hint : Option Res} {planned : List String} {v : VMach}
    (h : v ∈ selectVmsToMove m cs src hint planned) :
    v ∈ cs.vms ∧ v.host = some src ∧ v.name ∉ planned := by
  unfold selectVmsToMove at h
  have h1 : v ∈ sortDescBy (vmSortKey cs hint) ((vmsOnHost cs src).filter
      (fun v => !(decide (v.name ∈ planned)) && !v.template)) :=
    List.mem_of_mem_take h
  have h2 := (sortDescBy_perm (vmSortKey cs hint) _).mem_iff.mp h1
  rw [List.mem_filter] at h2
  obtain ⟨hon, hcond⟩ := h2
  unfold vmsOnHost at hon
  rw [List.mem_filter] at hon
  simp only [Bool.and_eq_true, Bool.not_eq_true', decide_eq_false_iff_not] at hcond
  exact ⟨hon.1, eq_of_beq hon.2, hcond.1⟩

theorem selectVmsToMove_nodup {m : Manager} {cs : ClusterState} {src : String}
    {hint : Option Res} {planned : List String}
    (hvms : (cs.vms.map (fun v => v.name)).Nodup) :
    ((selectVmsToMove m cs src hint planned).map (fun v => v.name)).Nodup := by
  unfold selectVmsToMove
  have h1 : (((vmsOnHost cs src).filter
      (fun v => !(decide (v.name ∈ planned)) && !v.template)).map
        (fun v => v.name)).Nodup := by
    refine List.Nodup.sublist (List.Sublist.map _ ?_) hvms
    exact (List.filter_sublist _).trans (List.filter_sublist _)
  have h2 : ((sortDescBy (vmSortKey cs hint) ((vmsOnHost cs src).filter
      (fun v => !(decide (v.name ∈ planned)) && !v.template))).map
        (fun v => v.name)).Nodup :=
    ((sortDescBy_perm (vmSortKey cs hint) _).map _).nodup_iff.mpr h1
  exact List.Nodup.sublist (List.Sublist.map _ (List.take_sublist _ _)) h2

/-! ## Claim C2: loop invariants -/

theorem planAALoop_sound (m : Manager) (cs : ClusterState) :
    ∀ (viol : List VMach) (migs : List Migration) (planned : List String),
    (migs.map (fun mg => mg.vm.name)).Nodup →
    (∀ mg ∈ migs, mg.vm.name ∈ planned) →
    (∀ mg ∈ migs, migValid cs mg) →
    ((planAALoop m cs viol migs planned).1.map (fun mg => mg.vm.name)).Nodup ∧
    (∀ mg ∈ (planAALoop m cs viol migs planned).1,
      mg.vm.name ∈ (planAALoop m cs viol migs planned).2) ∧
    (∀ mg ∈ (planAALoop m cs viol migs planned).1, migValid cs mg) ∧
    (∀ n ∈ planned, n ∈ (planAALoop m cs viol migs planned).2)
  | [], migs, planned => by
    intro h1 h2 h3
    exact ⟨h1, h2, h3, fun n hn => hn⟩
  | v :: rest, migs, planned => by
    intro h1 h2 h3
    unfold planAALoop
    by_cases hin : v.name ∈ planned
    · rw [if_pos hin]
      exact planAALoop_sound m cs rest migs planned h1 h2 h3
    · rw [if_neg hin]
      by_cases htpl : v.template = true
      · rw [if_pos htpl]
        exact planAALoop_sound m cs rest migs planned h1 h2 h3
      · rw [if_neg htpl]
        cases hpref : getPreferredHostForVm cs v migs with
        | none => exact planAALoop_sound m cs rest migs planned h1 h2 h3
        | some t =>
          dsimp only
          by_cases hfit : m.antiAffinityOnlyAttr = true ∨
              wouldFitOnHostSoft cs v t 95 95 = true
          · rw [if_pos hfit]
            obtain ⟨src, hvh, htmem, htne⟩ := getPreferredHostForVm_some hpref
            have h1' : ((migs ++ [Migration.mk v t "Anti-Affinity"]).map
                (fun mg => mg.vm.name)).Nodup := by
              rw [List.map_append]
              refine List.nodup_append.mpr ⟨h1, List.nodup_singleton _, ?_⟩
              intro a ha hb
              rw [List.mem_map] at ha
              obtain ⟨mg, hmg, rfl⟩ := ha
              simp only [List.map_cons, List.map_nil, List.mem_singleton] at hb
              exact hin (hb ▸ h2 mg hmg)
            have h2' : ∀ mg ∈ migs ++ [Migration.mk v t "Anti-Affinity"],
                mg.vm.name ∈ v.name :: planned := by
              intro mg hmg
              rcases List.mem_append.mp hmg with hmg | hmg
              · exact List.mem_cons_of_mem _ (h2 mg hmg)
              · rw [List.mem_singleton] at hmg
                subst hmg
                exact List.mem_cons_self _ _
            have h3' : ∀ mg ∈ migs ++ [Migration.mk v t "Anti-Affinity"], migValid cs mg := by
              intro mg hmg
              rcases List.mem_append.mp hmg with hmg | hmg
              · exact h3 mg hmg
              · rw [List.mem_singleton] at hmg
                subst hmg
                refine ⟨htmem, ?_⟩
                rw [hvh]
                intro hcon
                exact htne (Option.some.inj hcon).symm
            obtain ⟨c1, c2, c3, c4⟩ := planAALoop_sound m cs rest
              (migs ++ [Migration.mk v t "Anti-Affinity"]) (v.name :: planned) h1' h2' h3'
            exact ⟨c1, c2, c3, fun n hn => c4 n (List.mem_cons_of_mem _ hn)⟩
          · rw [if_neg hfit]
            exact planAALoop_sound m cs rest migs planned h1 h2 h3

theorem balanceVmLoop_sound (m : Manager) (cs : ClusterState) (src : String)
    (srcMet : SimPct) (hint : Option Res) (problematic : List Res)
    (decisionMap : List (String × SimPct)) (base : List String) :
    ∀ (cands : List VMach) (bal : List Migration) (planned : List String)
      (safety : List Migration),
    (bal.map (fun mg => mg.vm.name)).Nodup →
    (∀ mg ∈ bal, mg.vm.name ∈ planned) →
    (∀ mg ∈ bal, migValid cs mg) →
    (∀ mg ∈ bal, mg.vm.name ∉ base) →
    (∀ n ∈ base, n ∈ planned) →
    ((cands.map (fun v => v.name)).Nodup) →
    (∀ c ∈ cands, c.name ∉ planned) →
    (∀ c ∈ cands, c.host = some src) →
    ((balanceVmLoop m cs src srcMet hint problematic decisionMap cands bal planned
        safety).1.map (fun mg => mg.vm.name)).Nodup ∧
    (∀ mg ∈ (balanceVmLoop m cs src srcMet hint problematic decisionMap cands bal
        planned safety).1,
      mg.vm.name ∈ (balanceVmLoop m cs src srcMet hint problematic decisionMap cands
        bal planned safety).2.1) ∧
    (∀ mg ∈ (balanceVmLoop m cs src srcMet hint problematic decisionMap cands bal
        planned safety).1, migValid cs mg) ∧
    (∀ mg ∈ (balanceVmLoop m cs src srcMet hint problematic decisionMap cands bal
        planned safety).1, mg.vm.name ∉ base) ∧
    (∀ n ∈ planned, n ∈ (balanceVmLoop m cs src srcMet hint problematic decisionMap
        cands bal planned safety).2.1)
  | [], bal, planned, safety => by
    intro h1 h2 h3 h4 _ _ _ _
    exact ⟨h1, h2, h3, h4, fun n hn => hn⟩
  | vm :: rest, bal, planned, safety => by
    intro h1 h2 h3 h4 hbase hc1 hc2 hc3
    unfold balanceVmLoop
    have hrest1 : ((rest.map (fun v => v.name)).Nodup) := (List.nodup_cons.mp hc1).2
    by_cases hemp : problematic.isEmpty = true
    · rw [if_pos hemp]
      exact balanceVmLoop_sound m cs src srcMet hint problematic decisionMap base rest
        bal planned safety h1 h2 h3 h4 hbase hrest1
        (fun c hc => hc2 c (List.mem_cons_of_mem _ hc))
        (fun c hc => hc3 c (List.mem_cons_of_mem _ hc))
    · rw [if_neg hemp]
      cases hfind : findBetterHostForBalancing m cs vm src srcMet hint problematic
          decisionMap safety with
      | none =>
        exact balanceVmLoop_sound m cs src srcMet hint problematic decisionMap base
          rest bal planned safety h1 h2 h3 h4 hbase hrest1
          (fun c hc => hc2 c (List.mem_cons_of_mem _ hc))
          (fun c hc => hc3 c (List.mem_cons_of_mem _ hc))
      | some t =>
        dsimp only
        obtain ⟨htmem, htne⟩ := findBetterHostForBalancing_some hfind
        have hvmname : vm.name ∉ planned := hc2 vm (List.mem_cons_self _ _)
        have hvmhost : vm.host = some src := hc3 vm (List.mem_cons_self _ _)
        have h1' : ((bal ++ [Migration.mk vm t "Resource Balancing"]).map
            (fun mg => mg.vm.name)).Nodup := by
          rw [List.map_append]
          refine List.nodup_append.mpr ⟨h1, List.nodup_singleton _, ?_⟩
          intro a ha hb
          rw [List.mem_map] at ha
          obtain ⟨mg, hmg, rfl⟩ := ha
          simp only [List.map_cons, List.map_nil, List.mem_singleton] at hb
          exact hvmname (hb ▸ h2 mg hmg)
        have h2' : ∀ mg ∈ bal ++ [Migration.mk vm t "Resource Balancing"],
            mg.vm.name ∈ vm.name :: planned := by
          intro mg hmg
          rcases List.mem_append.mp hmg with hmg | hmg
          · exact List.mem_cons_of_mem _ (h2 mg hmg)
          · rw [List.mem_singleton] at hmg
            subst hmg
            exact List.mem_cons_self _ _
        have h3' : ∀ mg ∈ bal ++ [Migration.mk vm t "Resource Balancing"], migValid cs mg := by
          intro mg hmg
          rcases List.mem_append.mp hmg with hmg | hmg
          · exact h3 mg hmg
          · rw [List.mem_singleton] at hmg
            subst hmg
            refine ⟨htmem, ?_⟩
            rw [hvmhost]
            intro hcon
            exact htne (Option.some.inj hcon).symm
        have h4' : ∀ mg ∈ bal ++ [Migration.mk vm t "Resource Balancing"],
            mg.vm.name ∉ base := by
          intro mg hmg
          rcases List.mem_append.mp hmg with hmg | hmg
          · exact h4 mg hmg
          · rw [List.mem_singleton] at hmg
            subst hmg
            exact fun hcon => hvmname (hbase _ hcon)
        have hbase' : ∀ n ∈ base, n ∈ vm.name :: planned :=
          fun n hn => List.mem_cons_of_mem _ (hbase n hn)
        have hc2' : ∀ c ∈ rest, c.name ∉ vm.name :: planned := by
          intro c hc
          rw [List.mem_cons]
          rintro (hcon | hcon)
          · have hnd := hc1
            simp only [List.map_cons, List.nodup_cons] at hnd
            exact hnd.1 (hcon ▸ List.mem_map_of_mem (fun v => v.name) hc)
          · exact hc2 c (List.mem_cons_of_mem _ hc) hcon
        obtain ⟨c1, c2, c3, c4, c5⟩ := balanceVmLoop_sound m cs src srcMet hint
          problematic decisionMap base rest (bal ++ [Migration.mk vm t "Resource Balancing"])
          (vm.name :: planned) (safety ++ [Migration.mk vm t "Resource Balancing"])
          h1' h2' h3' h4' hbase' hrest1 hc2'
          (fun c hc => hc3 c (List.mem_cons_of_mem _ hc))
        exact ⟨c1, c2, c3, c4, fun n hn => c5 n (List.mem_cons_of_mem _ hn)⟩

theorem balanceHostLoop_sound (m : Manager) (cs : ClusterState)
    (details : Res → ImbalanceDetail) (problematic : List Res)
    (decisionMap : List (String × SimPct)) (base : List String)
    (hvms : (cs.vms.map (fun v => v.name)).Nodup) :
    ∀ (hosts : List String) (bal : List Migration) (planned : List String)
      (safety : List Migration),
    (bal.map (fun mg => mg.vm.name)).Nodup →
    (∀ mg ∈ bal, mg.vm.name ∈ planned) →
    (∀ mg ∈ bal, migValid cs mg) →
    (∀ mg ∈ bal, mg.vm.name ∉ base) →
    (∀ n ∈ base, n ∈ planned) →
    ((balanceHostLoop m cs details problematic decisionMap hosts bal planned
        safety).1.map (fun mg => mg.vm.name)).Nodup ∧
    (∀ mg ∈ (balanceHostLoop m cs details problematic decisionMap hosts bal planned
        safety).1, migValid cs mg) ∧
    (∀ mg ∈ (balanceHostLoop m cs details problematic decisionMap hosts bal planned
        safety).1, mg.vm.name ∉ base)
  | [], bal, planned, safety => by
    intro h1 _ h3 h4 _
    exact ⟨h1, h3, h4⟩
  | src :: rest, bal, planned, safety => by
    intro h1 h2 h3 h4 hbase
    unfold balanceHostLoop
    cases hlk : decisionMap.lookup src with
    | none =>
      exact balanceHostLoop_sound m cs details problematic decisionMap base hvms rest
        bal planned safety h1 h2 h3 h4 hbase
    | some srcMet =>
      dsimp only
      cases hfq : problematic.find? (fun r => hostQualifies m details srcMet r) with
      | none =>
        exact balanceHostLoop_sound m cs details problematic decisionMap base hvms
          rest bal planned safety h1 h2 h3 h4 hbase
      | some hintRes =>
        dsimp only
        obtain ⟨c1, c2, c3, c4, c5⟩ := balanceVmLoop_sound m cs src srcMet
          (some hintRes) problematic decisionMap base
          (selectVmsToMove m cs src (some hintRes) planned) bal planned safety
          h1 h2 h3 h4 hbase (selectVmsToMove_nodup hvms)
          (fun c hc => (selectVmsToMove_mem hc).2.2)
          (fun c hc => (selectVmsToMove_mem hc).2.1)
        obtain ⟨d1, d2, d3⟩ := balanceHostLoop_sound m cs details problematic
          decisionMap base hvms rest _ _ _ c1 c2 c3 c4
          (fun n hn => c5 n (hbase n hn))
        exact ⟨d1, d2, d3⟩

/-! ## Claim C2: main theorem -/

theorem mapped_truncate_sound {cs : ClusterState} (maxT : ℕ) (migs : List Migration)
    (h1 : (migs.map (fun mg => mg.vm.name)).Nodup)
    (h2 : ∀ mg ∈ migs, migValid cs mg) :
    (((truncatePlan maxT migs).map (fun mg => (mg.vm, mg.target))).map
        (fun p => p.1.name)).Nodup ∧
    ∀ p ∈ (truncatePlan maxT migs).map (fun mg => (mg.vm, mg.target)),
      p.2 ∈ cs.hosts ∧ p.1.host ≠ some p.2 := by
  obtain ⟨l, hsub, hperm⟩ := truncatePlan_sublist_perm maxT migs
  constructor
  · rw [List.map_map]
    show ((truncatePlan maxT migs).map (fun mg => mg.vm.name)).Nodup
    refine List.Nodup.sublist (List.Sublist.map _ hsub) ?_
    exact ((hperm.map (fun mg => mg.vm.name)).nodup_iff).mpr h1
  · intro p hp
    rw [List.mem_map] at hp
    obtain ⟨mg, hmg, rfl⟩ := hp
    exact h2 mg (hperm.mem_iff.mp (hsub.subset hmg))

theorem planBalancing_sound (m : Manager) (cs : ClusterState) (le : List HostDict)
    (base : List String) (aaMigs : List Migration)
    (dm : List (String × SimPct))
    (ovr : Option (List ℚ × List ℚ × List ℚ × List ℚ))
    (hvms : (cs.vms.map (fun v => v.name)).Nodup) :
    ((planBalancingMigrations m cs le base dm aaMigs ovr).map
        (fun mg => mg.vm.name)).Nodup ∧
    (∀ mg ∈ planBalancingMigrations m cs le base dm aaMigs ovr, migValid cs mg) ∧
    (∀ mg ∈ planBalancingMigrations m cs le base dm aaMigs ovr,
      mg.vm.name ∉ base) := by
  unfold planBalancingMigrations
  by_cases hemp : (Res.allList.filter (fun r =>
      (evaluateImbalance le m.aggressiveness ovr r).is_imbalanced)).isEmpty = true
  · rw [if_pos hemp]
    exact ⟨List.nodup_nil, by simp, by simp⟩
  · rw [if_neg hemp]
    obtain ⟨d1, d2, d3⟩ := balanceHostLoop_sound m cs
      (evaluateImbalance le m.aggressiveness ovr)
      (Res.allList.filter (fun r =>
        (evaluateImbalance le m.aggressiveness ovr r).is_imbalanced))
      dm base hvms cs.hosts [] base aaMigs
      (by simp) (by simp) (by simp) (by simp) (fun n hn => hn)
    exact ⟨d1, d2, d3⟩

/-- C2: for every snapshot (with distinct VM names) and every configuration,
the plan returned by `plan_migrations` names each VM at most once, and every
entry's target host is a snapshot host that differs from the VM's current
host. -/
theorem plan_migrations_invariants (m : Manager) (cs : ClusterState)
    (le : List HostDict) (antiAffinityOnly : Bool)
    (hvms : (cs.vms.map (fun v => v.name)).Nodup) :
    ((planMigrations m cs le antiAffinityOnly).map (fun p => p.1.name)).Nodup ∧
    ∀ p ∈ planMigrations m cs le antiAffinityOnly,
      p.2 ∈ cs.hosts ∧ p.1.host ≠ some p.2 := by
  obtain ⟨a1, a2, a3, -⟩ := planAALoop_sound m cs (calcViolations cs) [] []
    (by simp) (by simp) (by simp)
  cases antiAffinityOnly with
  | true =>
    exact mapped_truncate_sound m.maxTotalMigrations
      (planAntiAffinityMigrations m cs).1 a1 a3
  | false =>
    obtain ⟨b1, b2, b3⟩ := planBalancing_sound m cs le
      (planAntiAffinityMigrations m cs).2 (planAntiAffinityMigrations m cs).1
      (balancingInputs cs le (planAntiAffinityMigrations m cs).1).2
      (balancingInputs cs le (planAntiAffinityMigrations m cs).1).1 hvms
    have hnodup : (((planAntiAffinityMigrations m cs).1 ++
        planBalancingMigrations m cs le (planAntiAffinityMigrations m cs).2
          (balancingInputs cs le (planAntiAffinityMigrations m cs).1).2
          (planAntiAffinityMigrations m cs).1
          (balancingInputs cs le (planAntiAffinityMigrations m cs).1).1).map
            (fun mg => mg.vm.name)).Nodup := by
      rw [List.map_append]
      refine List.nodup_append.mpr ⟨a1, b1, ?_⟩
      intro a ha hb
      rw [List.mem_map] at ha hb
      obtain ⟨mg, hmg, rfl⟩ := ha
      obtain ⟨mg', hmg', heq⟩ := hb
      exact b3 mg' hmg' (heq ▸ a2 mg hmg)
    have hvalid : ∀ mg ∈ (planAntiAffinityMigrations m cs).1 ++
        planBalancingMigrations m cs le (planAntiAffinityMigrations m cs).2
          (balancingInputs cs le (planAntiAffinityMigrations m cs).1).2
          (planAntiAffinityMigrations m cs).1
          (balancingInputs cs le (planAntiAffinityMigrations m cs).1).1,
        migValid cs mg := by
      intro mg hmg
      rcases List.mem_append.mp hmg with hmg | hmg
      · exact a3 mg hmg
      · exact b2 mg hmg
    exact mapped_truncate_sound m.maxTotalMigrations _ hnodup hvalid

/-- C2 witness: the concentrated `app` snapshot (distinct VM names) in
default mode with an empty evaluator host list. -/
theorem plan_migrations_invariants_witness :
    ((csApp.vms.map (fun v => v.name)).Nodup) ∧
      (((planMigrations ⟨3, 20, false, false⟩ csApp [] false).map
          (fun p => p.1.name)).Nodup ∧
        ∀ p ∈ planMigrations ⟨3, 20, false, false⟩ csApp [] false,
          p.2 ∈ csApp.hosts ∧ p.1.host ≠ some p.2) :=
  ⟨by decide, plan_migrations_invariants ⟨3, 20, false, false⟩ csApp [] false
    (by decide)⟩

end FDRS
